import Mathlib

/-!
# BiliMux: packet codec, connection manager, heartbeat and relay loop

A shallow embedding of `protocol/protocol.go`, `manager/manager.go` and the relay
loop of `handlers/handlers.go`.

* A Go `[]byte` (and a Go `string`, which is a byte sequence) is a `List Byte`.
* Fixed-width integers are natural numbers or integers with the wrap-around written out.
* A call that returns `(value, error)` yields an `Outcome`; a run-time panic is a third case.
* `int` is taken to be 64 bits wide, so `int(header.PacketLength)` is the field's value.
* Goroutines are step functions over the events they can meet; a run is a list of events.
-/

namespace BiliMux

/-! ## Definitions: packet codec (`protocol/protocol.go`) -/

/-- One byte of a Go byte slice. -/
abbrev Byte := Fin 256

/-- Result of a Go call: a value, a returned `error` (its message), or a run-time panic. -/
inductive Outcome (α : Type) where
  | ok (a : α)
  | error (msg : String)
  | panic (msg : String)
  deriving DecidableEq, Repr

instance instDecidableEqExcept {ε α : Type} [DecidableEq ε] [DecidableEq α] :
    DecidableEq (Except ε α)
  | .ok a, .ok b => if h : a = b then isTrue (by rw [h]) else isFalse (by simpa using h)
  | .error a, .error b => if h : a = b then isTrue (by rw [h]) else isFalse (by simpa using h)
  | .ok _, .error _ => isFalse (by simp)
  | .error _, .ok _ => isFalse (by simp)

/-- Size of the packet header in bytes. -/
def HeaderLength : Nat := 16
/-- Version of a packet whose body is not compressed. -/
def VersionPlain : Nat := 0
/-- Version of a packet whose body is a zlib stream. -/
def VersionZlib : Nat := 2
/-- Version of a packet whose body is a brotli stream. -/
def VersionBrotli : Nat := 3
/-- Operation code of a heartbeat. -/
def OpHeartbeat : Nat := 2
/-- Operation code of a heartbeat reply. -/
def OpHeartbeatReply : Nat := 3
/-- Operation code of a message. -/
def OpMessage : Nat := 5
/-- Operation code of an auth request. -/
def OpAuth : Nat := 7
/-- Operation code of an auth reply. -/
def OpAuthReply : Nat := 8

/-- The wire header; `PacketLength`, `Operation`, `SequenceID` are `uint32`,
`HeaderLength` and `Version` are `uint16`. -/
structure PacketHeader where
  PacketLength : Nat
  HeaderLength : Nat
  Version : Nat
  Operation : Nat
  SequenceID : Nat
  deriving DecidableEq, Repr

/-- The bytes `data[lo:hi]` where the bounds are known to be in range. -/
def sub (data : List Byte) (lo hi : Nat) : List Byte :=
  (data.take hi).drop lo

/-- The Go slice expression `data[lo:hi]`; `none` is the panic
"slice bounds out of range" raised when `lo > hi` or `hi` exceeds the slice. -/
def slice (data : List Byte) (lo hi : Nat) : Option (List Byte) :=
  if lo ≤ hi ∧ hi ≤ data.length then some (sub data lo hi) else none

/-- Value of `binary.BigEndian.Uint16(b)` on a two-byte slice. -/
def bigEndianUint16 (b : List Byte) : Nat :=
  (b.getD 0 0).val * 2 ^ 8 + (b.getD 1 0).val

/-- Value of `binary.BigEndian.Uint32(b)` on a four-byte slice. -/
def bigEndianUint32 (b : List Byte) : Nat :=
  (b.getD 0 0).val * 2 ^ 24 + (b.getD 1 0).val * 2 ^ 16 + (b.getD 2 0).val * 2 ^ 8
    + (b.getD 3 0).val

/-- The five header assignments of `ParsePacket` (lines 51-55). -/
def readHeader (data : List Byte) : PacketHeader :=
  { PacketLength := bigEndianUint32 (sub data 0 4)
    HeaderLength := bigEndianUint16 (sub data 4 6)
    Version := bigEndianUint16 (sub data 6 8)
    Operation := bigEndianUint32 (sub data 8 12)
    SequenceID := bigEndianUint32 (sub data 12 16) }

/-- Function `ParsePacket`. The parameter `zlibReadAll` stands for the library calls
`zlib.NewReader(bytes.NewReader(body))` followed by `io.ReadAll`, returning the
inflated bytes or the error of either call. -/
def ParsePacket (zlibReadAll : List Byte → Except String (List Byte)) (data : List Byte) :
    Outcome (PacketHeader × List Byte) :=
  if data.length < HeaderLength then
    .error "数据包长度不足"
  else
    let header := readHeader data
    if header.PacketLength > data.length then
      .error "数据包长度错误"
    else
      match slice data header.HeaderLength header.PacketLength with
      | none => .panic "slice bounds out of range"
      | some body =>
        if header.Version = VersionZlib then
          match zlibReadAll body with
          | .error e => .error e
          | .ok decompressed => .ok (header, decompressed)
        else
          -- `VersionBrotli` has an empty case body; every other version has no case
          .ok (header, body)

/-- Go `make([]byte, n)`. -/
def make (n : Nat) : List Byte := List.replicate n 0

/-- Go `binary.BigEndian.PutUint16(packet[off:off+2], v)`; `none` when the slice
expression panics. -/
def putUint16 (packet : List Byte) (off v : Nat) : Option (List Byte) :=
  if off + 2 ≤ packet.length then
    some ((packet.set off (Fin.ofNat (v / 2 ^ 8))).set (off + 1) (Fin.ofNat v))
  else none

/-- Go `binary.BigEndian.PutUint32(packet[off:off+4], v)`; `none` when the slice
expression panics. -/
def putUint32 (packet : List Byte) (off v : Nat) : Option (List Byte) :=
  if off + 4 ≤ packet.length then
    some ((((packet.set off (Fin.ofNat (v / 2 ^ 24))).set (off + 1)
      (Fin.ofNat (v / 2 ^ 16))).set (off + 2) (Fin.ofNat (v / 2 ^ 8))).set (off + 3)
      (Fin.ofNat v))
  else none

/-- Go `copy(packet[off:], body)`: overwrites from `off` as many bytes as fit;
`none` when `packet[off:]` panics. -/
def copyAt (packet : List Byte) (off : Nat) (body : List Byte) : Option (List Byte) :=
  if off ≤ packet.length then
    some (packet.take off ++ body.take (packet.length - off)
      ++ packet.drop (off + min body.length (packet.length - off)))
  else none

/-- The five `Put` calls shared by both packet builders. -/
def writeHeader (packet : List Byte) (header : PacketHeader) : Option (List Byte) := do
  let p ← putUint32 packet 0 header.PacketLength
  let p ← putUint16 p 4 header.HeaderLength
  let p ← putUint16 p 6 header.Version
  let p ← putUint32 p 8 header.Operation
  putUint32 p 12 header.SequenceID

/-- Function `CreateHeartbeatPacket`. -/
def CreateHeartbeatPacket : Outcome (List Byte) :=
  let header : PacketHeader :=
    { PacketLength := HeaderLength
      HeaderLength := HeaderLength
      Version := 1
      Operation := OpHeartbeat
      SequenceID := 1 }
  match writeHeader (make header.PacketLength) header with
  | none => .panic "slice bounds out of range"
  | some packet => .ok packet

/-- The JSON payload of the auth packet; `int` fields are integers, `string`
fields are byte sequences. -/
structure AuthBody where
  UID : Int
  RoomID : Int
  ProtoVer : Int
  Buvid : List Byte
  Platform : List Byte
  AuthType : Int
  Key : List Byte
  deriving DecidableEq, Repr

/-- The bytes of an ASCII string literal. -/
def ascii (s : String) : List Byte := s.toList.map (fun c => Fin.ofNat c.toNat)

/-- Function `CreateAuthPacket`. The parameter `jsonMarshal` stands for the library call
`json.Marshal(authBody)`. -/
def CreateAuthPacket (jsonMarshal : AuthBody → Except String (List Byte))
    (roomID : Int) (token buvid3 : List Byte) : Outcome (List Byte) :=
  let authBody : AuthBody :=
    { UID := 0
      RoomID := roomID
      ProtoVer := 3
      Buvid := buvid3
      Platform := ascii "web"
      AuthType := 2
      Key := token }
  match jsonMarshal authBody with
  | .error e => .error e
  | .ok body =>
    let header : PacketHeader :=
      { PacketLength := (HeaderLength + body.length) % 2 ^ 32
        HeaderLength := HeaderLength
        Version := 1
        Operation := OpAuth
        SequenceID := 1 }
    match (writeHeader (make header.PacketLength) header).bind (fun p => copyAt p 16 body) with
    | none => .panic "slice bounds out of range"
    | some packet => .ok packet

/-- The 16 bytes that the five `Put` calls of the packet builders write. -/
def headerBytes (h : PacketHeader) : List Byte :=
  [Fin.ofNat (h.PacketLength / 2 ^ 24), Fin.ofNat (h.PacketLength / 2 ^ 16),
    Fin.ofNat (h.PacketLength / 2 ^ 8), Fin.ofNat h.PacketLength,
    Fin.ofNat (h.HeaderLength / 2 ^ 8), Fin.ofNat h.HeaderLength,
    Fin.ofNat (h.Version / 2 ^ 8), Fin.ofNat h.Version,
    Fin.ofNat (h.Operation / 2 ^ 24), Fin.ofNat (h.Operation / 2 ^ 16),
    Fin.ofNat (h.Operation / 2 ^ 8), Fin.ofNat h.Operation,
    Fin.ofNat (h.SequenceID / 2 ^ 24), Fin.ofNat (h.SequenceID / 2 ^ 16),
    Fin.ofNat (h.SequenceID / 2 ^ 8), Fin.ofNat h.SequenceID]

/-! ### An instance of `zlibReadAll`: a zlib decoder -/

/-- The bits of a byte, least significant first (the order in which deflate consumes them). -/
def byteBits (b : Byte) : List Bool := (List.range 8).map (fun i => b.val.testBit i)

/-- Value of a little-endian bit list. -/
def bitsToNat : List Bool → Nat
  | [] => 0
  | b :: rest => b.toNat + 2 * bitsToNat rest

/-- Reads an `n`-bit little-endian integer from a bit stream; `none` when fewer
than `n` bits are left. -/
def readBits (n : Nat) (bits : List Bool) : Option (Nat × List Bool) :=
  if (bits.take n).length < n then none else some (bitsToNat (bits.take n), bits.drop n)

/-- A canonical Huffman code: the number of codes of each length and the
symbols ordered by code. -/
structure Huffman where
  count : List Nat
  symbol : List Nat
  deriving Repr

/-- Builds the canonical code from the code length of each symbol. -/
def Huffman.build (lens : List Nat) : Huffman :=
  { count := (List.range 16).map (fun l => lens.count l)
    symbol := (List.range 16).tail.flatMap
      (fun l => (List.range lens.length).filter (fun s => lens.getD s 0 = l)) }

/-- Whether code lengths form a code that the decoder accepts: no code at all,
a complete code (every bit sequence of the largest length is assigned), or the
single code of length 1 that zlib writes for one lone symbol. -/
def completeCode (lens : List Nat) : Bool :=
  let top := ((List.range 16).filter (fun l => 0 < l ∧ 0 < lens.count l)).foldl max 0
  let code := ((List.range (top + 1)).filter (fun l => 0 < l)).foldl
    (fun s l => s + lens.count l * 2 ^ (top - l)) 0
  decide (top = 0 ∨ code = 2 ^ top ∨ (code = 1 ∧ top = 1))

/-- Decodes one symbol, reading the code most significant bit first. -/
def Huffman.decodeAux (h : Huffman) : Nat → Nat → Nat → Nat → Nat → List Bool →
    Option (Nat × List Bool)
  | 0, _, _, _, _, _ => none
  | _ + 1, _, _, _, _, [] => none
  | fuel + 1, len, code, first, index, b :: rest =>
    let code := code + b.toNat
    let count := h.count.getD len 0
    if code < first + count then
      some (h.symbol.getD (index + (code - first)) 0, rest)
    else
      h.decodeAux fuel (len + 1) (code * 2) ((first + count) * 2) (index + count) rest

/-- Decodes one symbol from the head of the bit stream. -/
def Huffman.decode (h : Huffman) (bits : List Bool) : Option (Nat × List Bool) :=
  h.decodeAux 15 1 0 0 0 bits

/-- Number of extra bits of length symbol `257 + i` (RFC 1951, 3.2.5). -/
def lengthExtra (i : Nat) : Nat :=
  if i < 4 ∨ i = 28 then 0 else i / 4 - 1

/-- Smallest match length of length symbol `257 + i`. -/
def lengthBase (i : Nat) : Nat :=
  if i = 28 then 258 else if i < 4 then 3 + i else 3 + (4 + i % 4) * 2 ^ (i / 4 - 1)

/-- Number of extra bits of distance symbol `ds`. -/
def distExtra (ds : Nat) : Nat :=
  if ds < 2 then 0 else ds / 2 - 1

/-- Smallest distance of distance symbol `ds`. -/
def distBase (ds : Nat) : Nat :=
  if ds < 2 then 1 + ds else 1 + (2 + ds % 2) * 2 ^ (ds / 2 - 1)

/-- Appends `len` bytes, each copied from `d` positions back (the copy may overlap itself). -/
def copyMatch (out : List Byte) (d : Nat) : Nat → List Byte
  | 0 => out
  | n + 1 => copyMatch (out ++ [out.getD (out.length - d) 0]) d n

/-- Decodes the literal/length and distance symbols of one compressed block. -/
def inflateCodes (lit dist : Huffman) : Nat → List Bool → List Byte →
    Option (List Bool × List Byte)
  | 0, _, _ => none
  | fuel + 1, bits, out =>
    match lit.decode bits with
    | none => none
    | some (sym, bits) =>
      if sym < 256 then inflateCodes lit dist fuel bits (out ++ [Fin.ofNat sym])
      else if sym = 256 then some (bits, out)
      else if sym - 257 ≥ 29 then none
      else
        match readBits (lengthExtra (sym - 257)) bits with
        | none => none
        | some (e, bits) =>
          match dist.decode bits with
          | none => none
          | some (ds, bits) =>
            if ds ≥ 30 then none
            else
              match readBits (distExtra ds) bits with
              | none => none
              | some (e2, bits) =>
                if distBase ds + e2 > out.length then none
                else
                  inflateCodes lit dist fuel bits
                    (copyMatch out (distBase ds + e2) (lengthBase (sym - 257) + e))

/-- The literal/length code of a fixed-Huffman block. -/
def fixedLit : Huffman :=
  Huffman.build (List.replicate 144 8 ++ List.replicate 112 9 ++ List.replicate 24 7
    ++ List.replicate 8 8)
/-- The distance code of a fixed-Huffman block. -/
def fixedDist : Huffman := Huffman.build (List.replicate 30 5)

/-- The order in which the code lengths of the code-length alphabet are stored. -/
def clOrder : List Nat :=
  [16, 17, 18, 0] ++ ((List.range 8).flatMap (fun k => [8 + k, 7 - k])).take 15

/-- Reads `n` three-bit code lengths. -/
def readClLens : Nat → List Bool → Option (List Nat × List Bool)
  | 0, bits => some ([], bits)
  | n + 1, bits =>
    match readBits 3 bits with
    | none => none
    | some (v, bits) => (readClLens n bits).map (fun r => (v :: r.1, r.2))

/-- Reads the run-length coded code lengths of a dynamic block until `total` are known. -/
def readLens (cl : Huffman) (total : Nat) : Nat → List Bool → List Nat →
    Option (List Nat × List Bool)
  | 0, _, _ => none
  | fuel + 1, bits, acc =>
    if acc.length ≥ total then some (acc, bits)
    else
      match cl.decode bits with
      | none => none
      | some (sym, bits) =>
        if sym < 16 then readLens cl total fuel bits (acc ++ [sym])
        else if sym = 16 then
          match acc.getLast?, readBits 2 bits with
          | some prev, some (r, bits) =>
            if acc.length + (3 + r) > total then none
            else readLens cl total fuel bits (acc ++ List.replicate (3 + r) prev)
          | _, _ => none
        else
          match readBits (if sym = 17 then 3 else 7) bits with
          | none => none
          | some (r, bits) =>
            let n := (if sym = 17 then 3 else 11) + r
            if acc.length + n > total then none
            else readLens cl total fuel bits (acc ++ List.replicate n 0)

/-- Reads the two Huffman codes at the head of a dynamic block. -/
def readDynamic (bits : List Bool) : Option (Huffman × Huffman × List Bool) :=
  match readBits 5 bits with
  | none => none
  | some (hlit, bits) =>
    match readBits 5 bits with
    | none => none
    | some (hdist, bits) =>
      match readBits 4 bits with
      | none => none
      | some (hclen, bits) =>
        if hlit + 257 > 286 ∨ hdist + 1 > 30 then none
        else
          match readClLens (hclen + 4) bits with
          | none => none
          | some (cls, bits) =>
            let clLens := (List.range 19).map
              (fun s => match clOrder.indexOf? s with
                | some i => cls.getD i 0
                | none => 0)
            if completeCode clLens = false then none
            else
              match readLens (Huffman.build clLens) (hlit + 257 + (hdist + 1))
                  (hlit + 257 + (hdist + 1) + 1) bits [] with
              | none => none
              | some (lens, bits) =>
                if lens.getD 256 0 = 0 ∨ completeCode (lens.take (hlit + 257)) = false
                    ∨ completeCode (lens.drop (hlit + 257)) = false then none
                else
                  some (Huffman.build (lens.take (hlit + 257)),
                    Huffman.build (lens.drop (hlit + 257)), bits)

/-- Regroups a byte-aligned bit stream into bytes. -/
def bitsToBytes : Nat → List Bool → List Byte
  | 0, _ => []
  | n + 1, bits => Fin.ofNat (bitsToNat (bits.take 8)) :: bitsToBytes n (bits.drop 8)

/-- Decodes a sequence of deflate blocks (RFC 1951); returns the output and the
unread bits after the final block. -/
def inflateBlocks : Nat → List Bool → List Byte → Option (List Byte × List Bool)
  | 0, _, _ => none
  | fuel + 1, bits, out =>
    match readBits 1 bits with
    | none => none
    | some (final, bits) =>
      match readBits 2 bits with
      | none => none
      | some (btype, bits) =>
        let next : Option (List Bool × List Byte) :=
          if btype = 0 then
            let bits := bits.drop (bits.length % 8)
            match readBits 16 bits with
            | none => none
            | some (len, bits) =>
              match readBits 16 bits with
              | none => none
              | some (nlen, bits) =>
                if len + nlen ≠ 65535 ∨ bits.length < 8 * len then none
                else some (bits.drop (8 * len), out ++ bitsToBytes len bits)
          else if btype = 1 then inflateCodes fixedLit fixedDist bits.length bits out
          else if btype = 2 then
            match readDynamic bits with
            | none => none
            | some (lit, dist, bits) => inflateCodes lit dist bits.length bits out
          else none
        match next with
        | none => none
        | some (bits, out) =>
          if final = 1 then some (out, bits) else inflateBlocks fuel bits out

/-- The Adler-32 checksum. -/
def adler32 (data : List Byte) : Nat :=
  let r := data.foldl (fun (s : Nat × Nat) b =>
    ((s.1 + b.val) % 65521, (s.2 + (s.1 + b.val) % 65521) % 65521)) (1, 0)
  r.2 * 65536 + r.1

/-- A decoder for the zlib format (RFC 1950 around RFC 1951), following the
reader of `compress/zlib` opened without dictionary: header check, then, when the
FDICT flag is set, a dictionary id that must be the Adler-32 of the empty
dictionary (1), the deflate blocks, and the Adler-32 trailer. Its error messages
are coarser than the library's error values. It is the instance of `zlibReadAll`
at which the codec is evaluated. -/
def zlibDecode (data : List Byte) : Except String (List Byte) :=
  match data with
  | cmf :: flg :: rest =>
    if cmf.val % 16 ≠ 8 ∨ cmf.val / 16 > 7 ∨ (cmf.val * 256 + flg.val) % 31 ≠ 0 then
      .error "zlib: invalid header"
    else if flg.val / 32 % 2 = 1 ∧ rest.length < 4 then .error "unexpected EOF"
    else if flg.val / 32 % 2 = 1 ∧ bigEndianUint32 (rest.take 4) ≠ 1 then
      .error "zlib: invalid dictionary"
    else
      let bits := (if flg.val / 32 % 2 = 1 then rest.drop 4 else rest).flatMap byteBits
      match inflateBlocks (bits.length + 1) bits [] with
      | none => .error "flate: corrupt input"
      | some (out, bits) =>
        let tail := bitsToBytes 4 (bits.drop (bits.length % 8))
        if bits.length / 8 < 4 then .error "unexpected EOF"
        else if tail.foldl (fun acc b => acc * 256 + b.val) 0 ≠ adler32 out then
          .error "zlib: invalid checksum"
        else .ok out
  | _ => .error "unexpected EOF"

/-! ### A zlib compressor: stored blocks (compression level 0) -/

/-- One stored deflate block (RFC 1951, 3.2.4) holding `chunk`: the header byte
with BFINAL and BTYPE = 00, LEN and NLEN little-endian, then the bytes as they are. -/
def storedBlock (final : Bool) (chunk : List Byte) : List Byte :=
  [if final then 1 else 0, Fin.ofNat chunk.length, Fin.ofNat (chunk.length / 256),
    Fin.ofNat (65535 - chunk.length), Fin.ofNat ((65535 - chunk.length) / 256)] ++ chunk

/-- The deflate stream of one stored block per chunk, the last one marked final. -/
def storedBlocks : List (List Byte) → List Byte
  | [] => []
  | [chunk] => storedBlock true chunk
  | chunk :: rest => storedBlock false chunk ++ storedBlocks rest

/-- The four bytes of a big-endian `uint32`. -/
def bigEndianBytes32 (v : Nat) : List Byte :=
  [Fin.ofNat (v / 2 ^ 24), Fin.ofNat (v / 2 ^ 16), Fin.ofNat (v / 2 ^ 8), Fin.ofNat v]

/-- The zlib stream (RFC 1950) whose deflate data are the stored blocks of
`chunks`: header `78 01`, the blocks, the Adler-32 of the data. -/
def zlibStored (chunks : List (List Byte)) : List Byte :=
  [0x78, 0x01] ++ storedBlocks chunks ++ bigEndianBytes32 (adler32 chunks.flatten)

/-- Cuts `p` into chunks of 65535 bytes, the largest a stored block holds; the
last chunk holds what is left (an empty `p` gives one empty chunk). -/
def splitBlocks : Nat → List Byte → List (List Byte)
  | 0, p => [p]
  | fuel + 1, p =>
    if p.length ≤ 65535 then [p] else p.take 65535 :: splitBlocks fuel (p.drop 65535)

/-- The zlib compression of `p` at level 0 (no compression): the stream a zlib
compressor writes when it stores the data; up to the cut into blocks it is what
the zlib library writes at that level. -/
def zlibCompress (p : List Byte) : List Byte :=
  zlibStored (splitBlocks p.length p)

/-! ### An instance of `json.Marshal` for `AuthBody` -/

/-- Lower-case hexadecimal digit. -/
def hexDigit (n : Nat) : Byte := Fin.ofNat (if n < 10 then 48 + n else 87 + n)

/-- Whether `b` is a UTF-8 continuation byte within `lo..hi`. -/
def inRange (lo hi : Nat) (b : Byte) : Bool := decide (lo ≤ b.val ∧ b.val ≤ hi)

/-- Length of the well-formed multi-byte UTF-8 sequence at the head of `s`, or `0`
when there is none (`utf8.DecodeRuneInString` then yields `RuneError` of size 1). -/
def utf8Size (s : List Byte) : Nat :=
  match s with
  | b0 :: b1 :: rest =>
    if inRange 0xC2 0xDF b0 then (if inRange 0x80 0xBF b1 then 2 else 0)
    else
      match rest with
      | b2 :: rest =>
        let lo1 := if b0.val = 0xE0 then 0xA0 else if b0.val = 0xF0 then 0x90 else 0x80
        let hi1 := if b0.val = 0xED then 0x9F else if b0.val = 0xF4 then 0x8F else 0xBF
        if inRange 0xE0 0xEF b0 then
          (if inRange lo1 hi1 b1 ∧ inRange 0x80 0xBF b2 then 3 else 0)
        else if inRange 0xF0 0xF4 b0 then
          match rest with
          | b3 :: _ =>
            if inRange lo1 hi1 b1 ∧ inRange 0x80 0xBF b2 ∧ inRange 0x80 0xBF b3 then 4 else 0
          | [] => 0
        else 0
      | [] => 0
  | _ => 0

/-- The escape written for one ASCII byte by the string encoder of `encoding/json`
(HTML escaping on), or the byte itself when it is safe. -/
def escapeAscii (b : Byte) : List Byte :=
  if b.val = 0x22 ∨ b.val = 0x5C then [0x5C, b]
  else if b.val = 0x08 then ascii "\\b"
  else if b.val = 0x0C then ascii "\\f"
  else if b.val = 0x0A then ascii "\\n"
  else if b.val = 0x0D then ascii "\\r"
  else if b.val = 0x09 then ascii "\\t"
  else if b.val < 0x20 ∨ b.val = 0x3C ∨ b.val = 0x3E ∨ b.val = 0x26 then
    ascii "\\u00" ++ [hexDigit (b.val / 16), hexDigit (b.val % 16)]
  else [b]

/-- The body of a JSON string literal for the Go string `s`. -/
def escapeString : Nat → List Byte → List Byte
  | 0, _ => []
  | _ + 1, [] => []
  | fuel + 1, b :: rest =>
    if b.val < 0x80 then escapeAscii b ++ escapeString fuel rest
    else if utf8Size (b :: rest) = 0 then ascii "\\ufffd" ++ escapeString fuel rest
    else if (b :: rest).take 3 = [0xE2, 0x80, 0xA8] then
      ascii "\\u2028" ++ escapeString fuel (rest.drop 2)
    else if (b :: rest).take 3 = [0xE2, 0x80, 0xA9] then
      ascii "\\u2029" ++ escapeString fuel (rest.drop 2)
    else
      (b :: rest).take (utf8Size (b :: rest))
        ++ escapeString fuel (rest.drop (utf8Size (b :: rest) - 1))

/-- A quoted JSON string. -/
def jsonString (s : List Byte) : List Byte :=
  [0x22] ++ escapeString s.length s ++ [0x22]

/-- A JSON integer (`strconv.AppendInt` in base 10). -/
def jsonInt (i : Int) : List Byte :=
  (if i < 0 then [0x2D] else []) ++ (Nat.toDigits 10 i.natAbs).map (fun c => Fin.ofNat c.toNat)

/-- An instance of `json.Marshal` on an `AuthBody`, following the struct tags
and the string encoder of `encoding/json` (Go 1.22 and later); it never fails. It
is the instance of `jsonMarshal` at which `CreateAuthPacket` is evaluated. -/
def jsonMarshalAuthBody (a : AuthBody) : Except String (List Byte) :=
  .ok (ascii "\x7b\"uid\":" ++ jsonInt a.UID
    ++ ascii ",\"roomid\":" ++ jsonInt a.RoomID
    ++ ascii ",\"protover\":" ++ jsonInt a.ProtoVer
    ++ ascii ",\"buvid\":" ++ jsonString a.Buvid
    ++ ascii ",\"platform\":" ++ jsonString a.Platform
    ++ ascii ",\"type\":" ++ jsonInt a.AuthType
    ++ ascii ",\"key\":" ++ jsonString a.Key
    ++ ascii "\x7d")

/-! ## Definitions: connection manager (`manager/manager.go`) -/

/-- Identity of a `*websocket.Conn`. -/
abbrev Conn := Nat

/-- Identity of a `context.CancelFunc`. -/
abbrev CancelFunc := Nat

/-- The four `int32` counters. -/
structure ConnectionStats where
  ActiveConnections : Int
  TotalConnections : Int
  Errors : Int
  MessagesForwarded : Int
  deriving DecidableEq, Repr

/-- The manager. `conns` is the map as a list of entries with distinct keys,
`sem` the number of elements buffered in the channel of capacity `semCap`,
`shutdown` whether the shutdown context is done (calling the field `cancel` sets
it). `cancelled` and `closed` record
the calls made so far to sessions' cancel functions and to `conn.Close()`. The
three caches are left out: none of the methods below touches them. -/
structure ConnectionManager where
  conns : List (Conn × CancelFunc)
  semCap : Nat
  sem : Nat
  shutdown : Bool
  stats : ConnectionStats
  cancelled : List CancelFunc
  closed : List Conn
  deriving DecidableEq, Repr

/-- Go `atomic.AddInt32(&x, d)`: two's-complement addition on 32 bits. -/
def addInt32 (x d : Int) : Int := (x + d + 2 ^ 31) % 2 ^ 32 - 2 ^ 31

/-- Function `NewConnectionManager(maxConns)` for `maxConns ≥ 0` (a negative size makes
`make` panic). -/
def NewConnectionManager (maxConns : Nat) : ConnectionManager :=
  { conns := []
    semCap := maxConns
    sem := 0
    shutdown := false
    stats := { ActiveConnections := 0, TotalConnections := 0, Errors := 0, MessagesForwarded := 0 }
    cancelled := []
    closed := [] }

/-- Map read `cm.conns[conn]`. -/
def lookupConn (conns : List (Conn × CancelFunc)) (conn : Conn) : Option CancelFunc :=
  (conns.find? (fun e => e.1 = conn)).map (fun e => e.2)

/-- Map removal `delete(cm.conns, conn)`. -/
def deleteConn (conns : List (Conn × CancelFunc)) (conn : Conn) : List (Conn × CancelFunc) :=
  conns.filter (fun e => e.1 ≠ conn)

/-- Map write `cm.conns[conn] = cancel`. -/
def insertConn (conns : List (Conn × CancelFunc)) (conn : Conn) (cancel : CancelFunc) :
    List (Conn × CancelFunc) :=
  (conn, cancel) :: deleteConn conns conn

/-- The branch a `select` statement of `Add` takes. -/
inductive SelectCase where
  | send
  | done
  | default
  deriving DecidableEq, Repr

/-- The `select` of `Add`: among the communications that can proceed one is
chosen pseudo-randomly (`pick` is that choice); `default` runs only when none can. -/
def selectAdd (pick : Nat) (canSend isDone : Bool) : SelectCase :=
  match canSend, isDone with
  | true, true => if pick % 2 = 0 then .send else .done
  | true, false => .send
  | false, true => .done
  | false, false => .default

/-- Method `Add`: the returned boolean and the state it leaves. -/
def ConnectionManager.Add (cm : ConnectionManager) (pick : Nat) (conn : Conn)
    (cancel : CancelFunc) : Bool × ConnectionManager :=
  match selectAdd pick (decide (cm.sem < cm.semCap)) cm.shutdown with
  | .send =>
    (true,
      { cm with
        sem := cm.sem + 1
        conns := insertConn cm.conns conn cancel
        stats :=
          { cm.stats with
            ActiveConnections := addInt32 cm.stats.ActiveConnections 1
            TotalConnections := addInt32 cm.stats.TotalConnections 1 } })
  | .done => (false, cm)
  | .default => (false, cm)

/-- A call that either returns or stays blocked on a channel operation forever;
both carry the state reached. -/
inductive Run (σ : Type) where
  | returned (s : σ)
  | blocked (s : σ)
  deriving DecidableEq, Repr

/-- Method `Remove`: blocks at `<-cm.sem` when the channel is empty. -/
def ConnectionManager.Remove (cm : ConnectionManager) (conn : Conn) : Run ConnectionManager :=
  let cm1 : ConnectionManager :=
    match lookupConn cm.conns conn with
    | some cancel =>
      { cm with cancelled := cm.cancelled ++ [cancel], conns := deleteConn cm.conns conn }
    | none => cm
  if cm1.sem = 0 then .blocked cm1
  else
    .returned
      { cm1 with
        sem := cm1.sem - 1
        stats :=
          { cm1.stats with ActiveConnections := addInt32 cm1.stats.ActiveConnections (-1) } }

/-- Method `CloseAll`. Go ranges over the map in an unspecified order; the entries are
visited here in list order, and only membership in the two records is used. -/
def ConnectionManager.CloseAll (cm : ConnectionManager) : ConnectionManager :=
  { cm with
    shutdown := true
    cancelled := cm.cancelled ++ cm.conns.map (fun e => e.2)
    closed := cm.closed ++ cm.conns.map (fun e => e.1) }

/-- Method `Stats`. -/
def ConnectionManager.Stats (cm : ConnectionManager) : ConnectionStats :=
  { ActiveConnections := cm.stats.ActiveConnections
    TotalConnections := cm.stats.TotalConnections
    Errors := cm.stats.Errors
    MessagesForwarded := cm.stats.MessagesForwarded }

/-- Method `IncrementErrors`. -/
def ConnectionManager.IncrementErrors (cm : ConnectionManager) : ConnectionManager :=
  { cm with stats := { cm.stats with Errors := addInt32 cm.stats.Errors 1 } }

/-- Method `IncrementMessages`. -/
def ConnectionManager.IncrementMessages (cm : ConnectionManager) : ConnectionManager :=
  { cm with stats := { cm.stats with MessagesForwarded := addInt32 cm.stats.MessagesForwarded 1 } }

/-- Successive `Add` calls, one per request `(pick, conn, cancel)`, with nothing
in between: the returned booleans in call order and the final state. -/
def addAll (cm : ConnectionManager) :
    List (Nat × Conn × CancelFunc) → List Bool × ConnectionManager
  | [] => ([], cm)
  | r :: rest =>
    ((cm.Add r.1 r.2.1 r.2.2).1 :: (addAll (cm.Add r.1 r.2.1 r.2.2).2 rest).1,
      (addAll (cm.Add r.1 r.2.1 r.2.2).2 rest).2)

/-- Successive `Remove` calls, one per connection; a call that blocks ends the run. -/
def removeAll (cm : ConnectionManager) : List Conn → Run ConnectionManager
  | [] => .returned cm
  | c :: rest =>
    match cm.Remove c with
    | .returned s => removeAll s rest
    | .blocked s => .blocked s

/-- The value of the `int32` that holds the integer `k` modulo `2^32`. -/
def wrapInt32 (k : Int) : Int := (k + 2 ^ 31) % 2 ^ 32 - 2 ^ 31

/-- One call made on the manager. -/
inductive Call where
  | add (pick : Nat) (conn : Conn) (cancel : CancelFunc)
  | remove (conn : Conn)
  | incrementErrors
  | incrementMessages
  deriving DecidableEq, Repr

/-- Runs a sequence of calls one after another; the second component counts the
`Add` calls that returned true. The result is `none` when a `Remove` finds the
gate empty: that call stays blocked, so the sequence cannot be run. -/
def runCalls : ConnectionManager × Nat → List Call → Option (ConnectionManager × Nat)
  | s, [] => some s
  | s, .add pick conn cancel :: rest =>
    runCalls ((s.1.Add pick conn cancel).2,
      if (s.1.Add pick conn cancel).1 = true then s.2 + 1 else s.2) rest
  | s, .remove conn :: rest =>
    match s.1.Remove conn with
    | .returned cm => runCalls (cm, s.2) rest
    | .blocked _ => none
  | s, .incrementErrors :: rest => runCalls (s.1.IncrementErrors, s.2) rest
  | s, .incrementMessages :: rest => runCalls (s.1.IncrementMessages, s.2) rest

/-- The sequence `calls` repeated `k` times. -/
def rounds (calls : List Call) : Nat → List Call
  | 0 => []
  | k + 1 => calls ++ rounds calls k

/-! ## Definitions: heartbeat (`protocol.HandleHeartbeat`) -/

/-- The two states of the goroutine that runs `HandleHeartbeat`: inside the loop, or returned. -/
inductive HeartbeatState where
  | Running
  | Stopped
  deriving DecidableEq, Repr

/-- What can happen around the goroutine: the ticker fires and the write of the
heartbeat frame fails or succeeds, or the session's context is cancelled. -/
inductive HeartbeatEvent where
  | tick (writeFails : Bool)
  | cancel
  deriving DecidableEq, Repr

/-- The goroutine, the manager it reports errors to, and the frames it has
written on the upstream socket. -/
structure Heartbeat where
  state : HeartbeatState
  cm : ConnectionManager
  written : List (List Byte)
  deriving DecidableEq, Repr

/-- One turn of the loop of `HandleHeartbeat`. Its `select` has the single case
`<-ticker.C` and the function receives no context, so a cancellation is not
observed; a failed write calls `cm.IncrementErrors()` and returns. -/
def heartbeatStep (h : Heartbeat) : HeartbeatEvent → Heartbeat
  | .tick writeFails =>
    match h.state with
    | .Stopped => h
    | .Running =>
      match CreateHeartbeatPacket with
      | .ok heartbeat =>
        if writeFails then { h with state := .Stopped, cm := h.cm.IncrementErrors }
        else { h with written := h.written ++ [heartbeat] }
      | _ => { h with state := .Stopped }
  | .cancel => h

/-- Function `HandleHeartbeat` run against a sequence of events. -/
def HandleHeartbeat (cm : ConnectionManager) (events : List HeartbeatEvent) : Heartbeat :=
  events.foldl heartbeatStep { state := .Running, cm := cm, written := [] }

/-! ## Definitions: relay loop (`handlers.ProxyHandler`, from the `Add` call on) -/

/-- Where the handler goroutine is: in `wg.Wait()`, blocked inside the deferred
`cm.Remove`, or returned. -/
inductive RelayPhase where
  | forwarding
  | removing
  | returned
  deriving DecidableEq, Repr

/-- An admitted session: the manager, the client socket and the cancel function
given to `Add`, whether each forwarding goroutine is still in its loop
(`up`: client to upstream, `down`: upstream to client), the handler's phase and
the number of calls of `cm.Remove(clientConn)` made so far. -/
structure RelaySession where
  cm : ConnectionManager
  clientConn : Conn
  cancel : CancelFunc
  upRunning : Bool
  downRunning : Bool
  phase : RelayPhase
  removeCalls : Nat
  deriving DecidableEq, Repr

/-- Whether the session's context is done: its cancel function has been called. -/
def RelaySession.ctxDone (s : RelaySession) : Bool := decide (s.cancel ∈ s.cm.cancelled)

/-- What can happen in an admitted session. `ioError`: a `ReadMessage` or
`WriteMessage` of that forwarding goroutine returns an error; `forwarded`: it
reads and writes one message; `sawDone`: its `select` takes `<-ctx.Done()`;
`closeAll`: another goroutine runs `cm.CloseAll()`; `waitReturns`: `wg.Wait()`
returns and the deferred calls run. -/
inductive RelayEvent where
  | ioError (up : Bool)
  | forwarded (up : Bool)
  | sawDone (up : Bool)
  | closeAll
  | waitReturns
  deriving DecidableEq, Repr

/-- The part of `ProxyHandler` up to `defer cm.Remove(clientConn)`: when `Add`
returns false the handler returns and there is no session. -/
def startRelay (cm : ConnectionManager) (pick : Nat) (clientConn : Conn) (cancel : CancelFunc) :
    Option RelaySession :=
  if (cm.Add pick clientConn cancel).1 = true then
    some
      { cm := (cm.Add pick clientConn cancel).2
        clientConn := clientConn
        cancel := cancel
        upRunning := true
        downRunning := true
        phase := .forwarding
        removeCalls := 0 }
  else none

/-- One step of an admitted session; `none` when the event cannot happen in
that state. A forwarding goroutine leaves its loop on an I/O error or on seeing
the context done; `wg.Wait()` returns only when both have left; the deferred
calls then run: `cm.Remove(clientConn)`, `cancel()` and the `Close` of the sockets. -/
def relayStep (s : RelaySession) : RelayEvent → Option RelaySession
  | .ioError up =>
    if up then (if s.upRunning then some { s with upRunning := false } else none)
    else (if s.downRunning then some { s with downRunning := false } else none)
  | .forwarded up =>
    if (if up then s.upRunning else s.downRunning) then
      some { s with cm := s.cm.IncrementMessages }
    else none
  | .sawDone up =>
    if s.ctxDone then
      (if up then (if s.upRunning then some { s with upRunning := false } else none)
       else (if s.downRunning then some { s with downRunning := false } else none))
    else none
  | .closeAll => some { s with cm := s.cm.CloseAll }
  | .waitReturns =>
    if s.phase = .forwarding ∧ s.upRunning = false ∧ s.downRunning = false then
      match s.cm.Remove s.clientConn with
      | .returned cm =>
        some
          { s with
            cm := { cm with cancelled := cm.cancelled ++ [s.cancel],
                            closed := cm.closed ++ [s.clientConn] }
            phase := .returned
            removeCalls := s.removeCalls + 1 }
      | .blocked cm => some { s with cm := cm, phase := .removing, removeCalls := s.removeCalls + 1 }
    else none

/-- A session run through a sequence of events; `none` when one of them cannot happen. -/
def runRelay (s : RelaySession) : List RelayEvent → Option RelaySession
  | [] => some s
  | e :: rest =>
    match relayStep s e with
    | some t => runRelay t rest
    | none => none

/-! ## Theorems -/

/-! ### Packet codec -/

/-- The header fields are the big-endian values of bytes 0..15. -/
theorem readHeader_bytes (data : List Byte) :
    readHeader data =
      { PacketLength := (data.getD 0 0).val * 2 ^ 24 + (data.getD 1 0).val * 2 ^ 16
          + (data.getD 2 0).val * 2 ^ 8 + (data.getD 3 0).val
        HeaderLength := (data.getD 4 0).val * 2 ^ 8 + (data.getD 5 0).val
        Version := (data.getD 6 0).val * 2 ^ 8 + (data.getD 7 0).val
        Operation := (data.getD 8 0).val * 2 ^ 24 + (data.getD 9 0).val * 2 ^ 16
          + (data.getD 10 0).val * 2 ^ 8 + (data.getD 11 0).val
        SequenceID := (data.getD 12 0).val * 2 ^ 24 + (data.getD 13 0).val * 2 ^ 16
          + (data.getD 14 0).val * 2 ^ 8 + (data.getD 15 0).val } := by
  simp [readHeader, bigEndianUint32, bigEndianUint16, sub, List.getD_eq_getElem?_getD,
    List.getElem?_drop, List.getElem?_take]

/-- Any version other than zlib: the body is the slice, returned as it is. -/
theorem ParsePacket_raw (zlibReadAll : List Byte → Except String (List Byte))
    (data : List Byte) (hlen : 16 ≤ data.length)
    (hpl : (readHeader data).PacketLength ≤ data.length)
    (hhl : (readHeader data).HeaderLength ≤ (readHeader data).PacketLength)
    (hver : (readHeader data).Version ≠ VersionZlib) :
    ParsePacket zlibReadAll data =
      .ok (readHeader data,
        sub data (readHeader data).HeaderLength (readHeader data).PacketLength) := by
  have h1 : ¬ data.length < HeaderLength := by simp [HeaderLength]; omega
  have h2 : ¬ (readHeader data).PacketLength > data.length := by omega
  simp [ParsePacket, h1, h2, slice, hhl, hpl, hver]

/-- C1 (as amended): for every buffer of at least 16 bytes whose packetLength
field is at most the buffer length, whose version field is 0 and whose
headerLength field is at most the packetLength field, `ParsePacket` succeeds with
the body `buffer[headerLength:packetLength]` unchanged and the header decoded
big-endian from bytes 0..15. -/
theorem ParsePacket_plain_body (zlibReadAll : List Byte → Except String (List Byte))
    (data : List Byte) (hlen : 16 ≤ data.length)
    (hpl : (readHeader data).PacketLength ≤ data.length)
    (hver : (readHeader data).Version = 0)
    (hhl : (readHeader data).HeaderLength ≤ (readHeader data).PacketLength) :
    ParsePacket zlibReadAll data =
        .ok (readHeader data,
          List.drop (readHeader data).HeaderLength
            (List.take (readHeader data).PacketLength data))
      ∧ readHeader data =
        { PacketLength := (data.getD 0 0).val * 2 ^ 24 + (data.getD 1 0).val * 2 ^ 16
            + (data.getD 2 0).val * 2 ^ 8 + (data.getD 3 0).val
          HeaderLength := (data.getD 4 0).val * 2 ^ 8 + (data.getD 5 0).val
          Version := (data.getD 6 0).val * 2 ^ 8 + (data.getD 7 0).val
          Operation := (data.getD 8 0).val * 2 ^ 24 + (data.getD 9 0).val * 2 ^ 16
            + (data.getD 10 0).val * 2 ^ 8 + (data.getD 11 0).val
          SequenceID := (data.getD 12 0).val * 2 ^ 24 + (data.getD 13 0).val * 2 ^ 16
            + (data.getD 14 0).val * 2 ^ 8 + (data.getD 15 0).val } := by
  refine ⟨?_, readHeader_bytes data⟩
  have hv : (readHeader data).Version ≠ VersionZlib := by rw [hver]; decide
  exact ParsePacket_raw zlibReadAll data hlen hpl hhl hv

/-- C1, witness: a plain packet of 18 bytes carrying the two bytes `68 69`. -/
theorem ParsePacket_plain_body_witness :
    ParsePacket zlibDecode [0, 0, 0, 18, 0, 16, 0, 0, 0, 0, 0, 5, 0, 0, 0, 9, 0x68, 0x69] =
      .ok ({ PacketLength := 18, HeaderLength := 16, Version := 0, Operation := 5,
             SequenceID := 9 }, [0x68, 0x69]) :=
  (ParsePacket_plain_body zlibDecode
    [0, 0, 0, 18, 0, 16, 0, 0, 0, 0, 0, 5, 0, 0, 0, 9, 0x68, 0x69]
    (by decide) (by decide) (by decide) (by decide)).1.trans (by decide)

/-- C1, counterexample: a 16-byte buffer with packetLength 0 (at most the buffer
length), version 0 and headerLength 16 makes `data[16:0]` panic, so `ParsePacket`
does not succeed. -/
theorem ParsePacket_plain_headerLength_panic :
    16 ≤ ([0, 0, 0, 0, 0, 16, 0, 0, 0, 0, 0, 5, 0, 0, 0, 0] : List Byte).length
      ∧ (readHeader [0, 0, 0, 0, 0, 16, 0, 0, 0, 0, 0, 5, 0, 0, 0, 0]).PacketLength
          ≤ ([0, 0, 0, 0, 0, 16, 0, 0, 0, 0, 0, 5, 0, 0, 0, 0] : List Byte).length
      ∧ (readHeader [0, 0, 0, 0, 0, 16, 0, 0, 0, 0, 0, 5, 0, 0, 0, 0]).Version = 0
      ∧ ParsePacket zlibDecode [0, 0, 0, 0, 0, 16, 0, 0, 0, 0, 0, 5, 0, 0, 0, 0] =
          .panic "slice bounds out of range" := by
  decide

/-- C2: a buffer shorter than 16 bytes fails with the error "数据包长度不足"
(Truncated); a buffer of at least 16 bytes whose packetLength field exceeds the
buffer length fails with the error "数据包长度错误" (LengthMismatch); the two errors
differ, and an error outcome carries neither header nor body. -/
theorem ParsePacket_malformed_length (zlibReadAll : List Byte → Except String (List Byte))
    (data : List Byte) :
    (data.length < 16 → ParsePacket zlibReadAll data = .error "数据包长度不足")
      ∧ (16 ≤ data.length → data.length < (readHeader data).PacketLength →
          ParsePacket zlibReadAll data = .error "数据包长度错误")
      ∧ (Outcome.error "数据包长度不足" : Outcome (PacketHeader × List Byte))
          ≠ .error "数据包长度错误" := by
  refine ⟨?_, ?_, by decide⟩
  · intro h
    simp [ParsePacket, HeaderLength, h]
  · intro h1 h2
    have h3 : ¬ data.length < HeaderLength := by simp [HeaderLength]; omega
    simp [ParsePacket, h3, h2]

/-- C2, witness: a 10-byte buffer is Truncated; a 16-byte buffer declaring
packetLength 17 is LengthMismatch. -/
theorem ParsePacket_malformed_length_witness :
    ParsePacket zlibDecode [0, 0, 0, 10, 0, 16, 0, 0, 0, 0] = .error "数据包长度不足"
      ∧ ParsePacket zlibDecode [0, 0, 0, 17, 0, 16, 0, 0, 0, 0, 0, 5, 0, 0, 0, 0]
          = .error "数据包长度错误" :=
  ⟨(ParsePacket_malformed_length zlibDecode [0, 0, 0, 10, 0, 16, 0, 0, 0, 0]).1 (by decide),
    (ParsePacket_malformed_length zlibDecode
      [0, 0, 0, 17, 0, 16, 0, 0, 0, 0, 0, 5, 0, 0, 0, 0]).2.1 (by decide) (by decide)⟩

/-- Version 2, whatever the reader: when the reader inflates the bytes after a
16-byte header to `p`, and the header says headerLength 16 and packetLength
`16 + len(c)`, `ParsePacket` hands the reader exactly `c` and returns `p`. -/
theorem ParsePacket_zlib_body (zlibReadAll : List Byte → Except String (List Byte))
    (p c hdr : List Byte) (hz : zlibReadAll c = .ok p) (hhdr : hdr.length = 16)
    (hhl : (readHeader (hdr ++ c)).HeaderLength = 16)
    (hver : (readHeader (hdr ++ c)).Version = 2)
    (hpl : (readHeader (hdr ++ c)).PacketLength = 16 + c.length) :
    ParsePacket zlibReadAll (hdr ++ c) = .ok (readHeader (hdr ++ c), p) := by
  have h1 : ¬ (hdr ++ c).length < HeaderLength := by
    simp only [List.length_append, HeaderLength, hhdr]; omega
  have h2 : ¬ (readHeader (hdr ++ c)).PacketLength > (hdr ++ c).length := by
    simp only [hpl, List.length_append, hhdr]; omega
  have h3 : slice (hdr ++ c) (readHeader (hdr ++ c)).HeaderLength
      (readHeader (hdr ++ c)).PacketLength = some c := by
    have ht : List.take (16 + c.length) (hdr ++ c) = hdr ++ c := by
      apply List.take_of_length_le
      simp only [List.length_append, hhdr]; omega
    have hc : 16 ≤ 16 + c.length ∧ 16 + c.length ≤ (hdr ++ c).length := by
      simp only [List.length_append, hhdr]; omega
    rw [hhl, hpl, slice, if_pos hc, sub, ht, List.drop_left' hhdr]
  have h4 : (readHeader (hdr ++ c)).Version = VersionZlib := by rw [hver]; rfl
  unfold ParsePacket
  simp only [if_neg h1, if_neg h2, h3, if_pos h4, hz]

/-! ### The stored-block compressor and the decoder -/

/-- A byte has eight bits. -/
theorem byteBits_length (b : Byte) : (byteBits b).length = 8 := by
  simp [byteBits]

/-- The bits of a byte give back its value. -/
theorem bitsToNat_byteBits : ∀ b : Byte, bitsToNat (byteBits b) = b.val := by
  set_option maxRecDepth 100000 in decide

/-- The value of a bit list splits at any point. -/
theorem bitsToNat_append (xs ys : List Bool) :
    bitsToNat (xs ++ ys) = bitsToNat xs + 2 ^ xs.length * bitsToNat ys := by
  induction xs with
  | nil => simp [bitsToNat]
  | cons x xs ih =>
    show x.toNat + 2 * bitsToNat (xs ++ ys)
      = x.toNat + 2 * bitsToNat xs + 2 ^ (xs.length + 1) * bitsToNat ys
    rw [ih, pow_succ]
    ring

/-- Reading the first `n` bits of a stream that starts with `n` given bits. -/
theorem readBits_append (xs ys : List Bool) :
    readBits xs.length (xs ++ ys) = some (bitsToNat xs, ys) := by
  simp [readBits]

/-- The bit stream of a byte sequence has eight bits per byte. -/
theorem length_flatMap_byteBits (l : List Byte) :
    (l.flatMap byteBits).length = 8 * l.length := by
  induction l with
  | nil => rfl
  | cons a l ih =>
    simp only [List.flatMap_cons, List.length_append, byteBits_length, ih, List.length_cons]
    omega

/-- Regrouping the bits of a byte sequence gives the bytes back. -/
theorem bitsToBytes_flatMap (ch : List Byte) (more : List Bool) :
    bitsToBytes ch.length (ch.flatMap byteBits ++ more) = ch := by
  induction ch with
  | nil => rfl
  | cons a l ih =>
    have h8 : (byteBits a).length = 8 := byteBits_length a
    have ht : List.take 8 (byteBits a ++ (l.flatMap byteBits ++ more)) = byteBits a := by
      rw [← h8]; exact List.take_left' rfl
    have hd : List.drop 8 (byteBits a ++ (l.flatMap byteBits ++ more))
        = l.flatMap byteBits ++ more := by
      rw [← h8]; exact List.drop_left' rfl
    have hv : (Fin.ofNat (bitsToNat (byteBits a)) : Byte) = a := by
      rw [bitsToNat_byteBits]
      exact Fin.ext (Nat.mod_eq_of_lt a.isLt)
    simp only [List.flatMap_cons, List.length_cons, List.append_assoc, bitsToBytes, ht, hd, hv, ih]


/-- A 16-bit length written as two bytes, low byte first, reads back. -/
theorem bitsToNat_le16 (n : Nat) (hn : n ≤ 65535) :
    bitsToNat (byteBits (Fin.ofNat n) ++ byteBits (Fin.ofNat (n / 256))) = n := by
  rw [bitsToNat_append, bitsToNat_byteBits, bitsToNat_byteBits, byteBits_length]
  show n % 256 + 2 ^ 8 * (n / 256 % 256) = n
  omega

/-- The decoder on one stored block: it appends the chunk to the output and
either ends (final block) or goes on with the bytes after the block. -/
theorem inflateBlocks_storedBlock (fuel : Nat) (final : Bool) (ch rest out : List Byte)
    (hlen : ch.length ≤ 65535) :
    inflateBlocks (fuel + 1) ((storedBlock final ch ++ rest).flatMap byteBits) out
      = if final then some (out ++ ch, rest.flatMap byteBits)
        else inflateBlocks fuel (rest.flatMap byteBits) (out ++ ch) := by
  have hB3 : (ch ++ rest).flatMap byteBits = ch.flatMap byteBits ++ rest.flatMap byteBits :=
    List.flatMap_append _ _ _
  have hlenB3 : ((ch ++ rest).flatMap byteBits).length = 8 * (ch.length + rest.length) := by
    rw [length_flatMap_byteBits, List.length_append]
  have hbits : (storedBlock final ch ++ rest).flatMap byteBits
      = byteBits (if final then 1 else 0)
        ++ ((byteBits (Fin.ofNat ch.length) ++ byteBits (Fin.ofNat (ch.length / 256)))
        ++ ((byteBits (Fin.ofNat (65535 - ch.length))
              ++ byteBits (Fin.ofNat ((65535 - ch.length) / 256)))
        ++ (ch ++ rest).flatMap byteBits)) := by
    simp only [storedBlock, List.cons_append, List.nil_append, List.flatMap_cons,
      List.append_assoc]
  have hhead : byteBits (if final then (1 : Byte) else 0)
      = [final, false, false] ++ [false, false, false, false, false] := by
    cases final <;> decide
  have r1 : ∀ T : List Bool, readBits 1 (final :: T) = some (final.toNat, T) := by
    intro T
    have := readBits_append [final] T
    simpa [bitsToNat] using this
  have r2 : ∀ T : List Bool, readBits 2 (false :: false :: T) = some (0, T) := by
    intro T
    have := readBits_append [false, false] T
    simpa [bitsToNat] using this
  have r16a : ∀ T : List Bool,
      readBits 16 ((byteBits (Fin.ofNat ch.length) ++ byteBits (Fin.ofNat (ch.length / 256)))
        ++ T) = some (ch.length, T) := by
    intro T
    have := readBits_append
      (byteBits (Fin.ofNat ch.length) ++ byteBits (Fin.ofNat (ch.length / 256))) T
    rw [bitsToNat_le16 _ hlen] at this
    simpa [byteBits_length] using this
  have r16b : ∀ T : List Bool,
      readBits 16 ((byteBits (Fin.ofNat (65535 - ch.length))
        ++ byteBits (Fin.ofNat ((65535 - ch.length) / 256))) ++ T)
        = some (65535 - ch.length, T) := by
    intro T
    have := readBits_append
      (byteBits (Fin.ofNat (65535 - ch.length))
        ++ byteBits (Fin.ofNat ((65535 - ch.length) / 256))) T
    rw [bitsToNat_le16 _ (by omega)] at this
    simpa [byteBits_length] using this
  have hdrop : ∀ X : List Bool, X.length % 8 = 0 →
      List.drop ((false :: false :: false :: false :: false :: X).length % 8)
        (false :: false :: false :: false :: false :: X) = X := by
    intro X hX
    have : (false :: false :: false :: false :: false :: X).length % 8 = 5 := by
      simp only [List.length_cons]
      omega
    rw [this]
    rfl
  have hlen8 : (((byteBits (Fin.ofNat ch.length)
      ++ byteBits (Fin.ofNat (ch.length / 256)))
      ++ ((byteBits (Fin.ofNat (65535 - ch.length))
            ++ byteBits (Fin.ofNat ((65535 - ch.length) / 256)))
      ++ (ch ++ rest).flatMap byteBits))).length % 8 = 0 := by
    simp only [List.length_append, byteBits_length, hlenB3]
    omega
  have hsum : ¬ (ch.length + (65535 - ch.length) ≠ 65535
      ∨ ((ch ++ rest).flatMap byteBits).length < 8 * ch.length) := by
    rw [hlenB3]
    omega
  have hdropB3 : List.drop (8 * ch.length) ((ch ++ rest).flatMap byteBits)
      = rest.flatMap byteBits := by
    rw [hB3]
    exact List.drop_left' (length_flatMap_byteBits ch)
  have hbytes : bitsToBytes ch.length ((ch ++ rest).flatMap byteBits) = ch := by
    rw [hB3]
    exact bitsToBytes_flatMap ch _
  rw [hbits, hhead]
  simp only [inflateBlocks, List.cons_append, List.nil_append, r1, r2, if_true,
    hdrop _ hlen8, r16a, r16b, if_neg hsum, hdropB3, hbytes]
  cases final <;> simp


/-- The decoder on a run of stored blocks followed by other bytes: with one
unit of fuel per block it returns the chunks in order and stops right after the
final block. -/
theorem inflateBlocks_storedBlocks (chunks : List (List Byte)) :
    ∀ (fuel : Nat) (tail out : List Byte), chunks ≠ [] →
      (∀ ch ∈ chunks, ch.length ≤ 65535) → chunks.length ≤ fuel →
      inflateBlocks fuel ((storedBlocks chunks ++ tail).flatMap byteBits) out
        = some (out ++ chunks.flatten, tail.flatMap byteBits) := by
  induction chunks with
  | nil => intro fuel tail out hne; exact absurd rfl hne
  | cons ch rest ih =>
    intro fuel tail out _ hsz hfuel
    obtain ⟨f, rfl⟩ : ∃ f, fuel = f + 1 := ⟨fuel - 1, by
      simp only [List.length_cons] at hfuel; omega⟩
    have hch : ch.length ≤ 65535 := hsz ch (List.mem_cons_self _ _)
    cases rest with
    | nil =>
      have := inflateBlocks_storedBlock f true ch tail out hch
      simpa [storedBlocks] using this
    | cons ch2 rest2 =>
      have h1 := inflateBlocks_storedBlock f false ch (storedBlocks (ch2 :: rest2) ++ tail) out hch
      have h2 := ih f tail (out ++ ch) (List.cons_ne_nil _ _)
        (fun c hc => hsz c (List.mem_cons_of_mem _ hc))
        (by simp only [List.length_cons] at hfuel ⊢; omega)
      have hs : storedBlocks (ch :: ch2 :: rest2) ++ tail
          = storedBlock false ch ++ (storedBlocks (ch2 :: rest2) ++ tail) := by
        simp only [storedBlocks, List.append_assoc]
      rw [hs, h1]
      simp only [Bool.false_eq_true, if_false, h2, List.flatten_cons, List.append_assoc]

/-- Every block takes at least one byte. -/
theorem length_storedBlocks (chunks : List (List Byte)) :
    chunks.length ≤ (storedBlocks chunks).length := by
  induction chunks with
  | nil => exact Nat.le_refl 0
  | cons ch rest ih =>
    cases rest with
    | nil => simp [storedBlocks, storedBlock]
    | cons ch2 rest2 =>
      have hs : storedBlocks (ch :: ch2 :: rest2)
          = storedBlock false ch ++ storedBlocks (ch2 :: rest2) := rfl
      rw [hs, List.length_append]
      have : 1 ≤ (storedBlock false ch).length := by simp [storedBlock]
      simp only [List.length_cons] at ih ⊢
      omega

/-- Both halves of the Adler-32 state stay below 65521. -/
theorem adler32_state (data : List Byte) :
    ∀ s : Nat × Nat, s.1 < 65521 → s.2 < 65521 →
      (data.foldl (fun (s : Nat × Nat) b =>
        ((s.1 + b.val) % 65521, (s.2 + (s.1 + b.val) % 65521) % 65521)) s).1 < 65521
      ∧ (data.foldl (fun (s : Nat × Nat) b =>
        ((s.1 + b.val) % 65521, (s.2 + (s.1 + b.val) % 65521) % 65521)) s).2 < 65521 := by
  induction data with
  | nil => intro s h1 h2; exact ⟨h1, h2⟩
  | cons b rest ih =>
    intro s _ _
    simp only [List.foldl_cons]
    exact ih _ (Nat.mod_lt _ (by decide)) (Nat.mod_lt _ (by decide))

/-- The Adler-32 checksum fits 32 bits. -/
theorem adler32_lt (data : List Byte) : adler32 data < 2 ^ 32 := by
  obtain ⟨h1, h2⟩ := adler32_state data (1, 0) (by decide) (by decide)
  unfold adler32
  simp only
  omega

/-- The four trailer bytes read back as the checksum they hold. -/
theorem trailer_value (v : Nat) (hv : v < 2 ^ 32) :
    (bitsToBytes 4 ((bigEndianBytes32 v).flatMap byteBits)).foldl
      (fun acc b => acc * 256 + b.val) 0 = v := by
  have h := bitsToBytes_flatMap (bigEndianBytes32 v) []
  rw [List.append_nil] at h
  have h4 : (bigEndianBytes32 v).length = 4 := rfl
  rw [h4] at h
  rw [h]
  simp only [bigEndianBytes32, List.foldl_cons, List.foldl_nil, Fin.ofNat]
  omega

/-- The decoder inverts the stored-block zlib streams: whatever the cut of the
data into chunks of at most 65535 bytes, decoding gives the data back. -/
theorem zlibDecode_zlibStored (chunks : List (List Byte)) (hne : chunks ≠ [])
    (hsz : ∀ ch ∈ chunks, ch.length ≤ 65535) :
    zlibDecode (zlibStored chunks) = .ok chunks.flatten := by
  have hcmf : ¬ (((0x78 : Byte)).val % 16 ≠ 8 ∨ ((0x78 : Byte)).val / 16 > 7
      ∨ (((0x78 : Byte)).val * 256 + ((0x01 : Byte)).val) % 31 ≠ 0) := by decide
  have hfd : ¬ ((0x01 : Byte)).val / 32 % 2 = 1 := by decide
  have hrun := inflateBlocks_storedBlocks chunks
    (((storedBlocks chunks ++ bigEndianBytes32 (adler32 chunks.flatten)).flatMap
      byteBits).length + 1)
    (bigEndianBytes32 (adler32 chunks.flatten)) [] hne hsz (by
      rw [length_flatMap_byteBits, List.length_append]
      have := length_storedBlocks chunks
      omega)
  have htl : ((bigEndianBytes32 (adler32 chunks.flatten)).flatMap byteBits).length = 32 := by
    rw [length_flatMap_byteBits]; rfl
  unfold zlibDecode zlibStored
  simp only [List.cons_append, List.nil_append, if_neg hcmf, hfd, false_and, if_false, hrun,
    htl, List.drop_zero]
  simp only [List.nil_append, Nat.mod_self, Nat.reduceMod, Nat.reduceDiv, Nat.lt_irrefl,
    List.drop_zero, if_false, trailer_value _ (adler32_lt _), ne_eq, not_true_eq_false]


/-- The chunks of `splitBlocks` make up the data, there is at least one, and
none is longer than a stored block allows. -/
theorem splitBlocks_spec (fuel : Nat) :
    ∀ p : List Byte, p.length ≤ fuel + 65535 →
      (splitBlocks fuel p).flatten = p ∧ splitBlocks fuel p ≠ []
        ∧ ∀ ch ∈ splitBlocks fuel p, ch.length ≤ 65535 := by
  induction fuel with
  | zero =>
    intro p hp
    refine ⟨by simp [splitBlocks], by simp [splitBlocks], ?_⟩
    intro ch hch
    simp only [splitBlocks, List.mem_singleton] at hch
    rw [hch]; omega
  | succ f ih =>
    intro p hp
    by_cases hle : p.length ≤ 65535
    · refine ⟨by simp [splitBlocks, hle], by simp [splitBlocks, hle], ?_⟩
      intro ch hch
      simp only [splitBlocks, hle, if_true, List.mem_singleton] at hch
      rw [hch]; exact hle
    · obtain ⟨i1, _, i3⟩ := ih (p.drop 65535) (by rw [List.length_drop]; omega)
      refine ⟨?_, by simp [splitBlocks, hle], ?_⟩
      · simp only [splitBlocks, hle, if_false, List.flatten_cons, i1, List.take_append_drop]
      · intro ch hch
        simp only [splitBlocks, hle, if_false, List.mem_cons] at hch
        rcases hch with rfl | hch
        · rw [List.length_take]; omega
        · exact i3 ch hch

/-- Decoding the level-0 compression of `p` gives `p` back. -/
theorem zlibDecode_zlibCompress (p : List Byte) : zlibDecode (zlibCompress p) = .ok p := by
  obtain ⟨h1, h2, h3⟩ := splitBlocks_spec p.length p (by omega)
  have := zlibDecode_zlibStored (splitBlocks p.length p) h2 h3
  rw [h1] at this
  exact this

/-- C4: for every buffer of at least 16 bytes with
headerLength ≤ packetLength ≤ len(buffer) and version 3, `ParsePacket` succeeds
with the decoded header and the body `buffer[headerLength:packetLength]`, not
decompressed: the very slice the version-0 path returns. -/
theorem ParsePacket_brotli_passthrough (zlibReadAll : List Byte → Except String (List Byte))
    (data : List Byte) (hlen : 16 ≤ data.length)
    (hhl : (readHeader data).HeaderLength ≤ (readHeader data).PacketLength)
    (hpl : (readHeader data).PacketLength ≤ data.length)
    (hver : (readHeader data).Version = VersionBrotli) :
    ParsePacket zlibReadAll data =
      .ok (readHeader data,
        List.drop (readHeader data).HeaderLength
          (List.take (readHeader data).PacketLength data)) := by
  have hv : (readHeader data).Version ≠ VersionZlib := by rw [hver]; decide
  exact ParsePacket_raw zlibReadAll data hlen hpl hhl hv

/-- C4, witness: a version-3 packet of 19 bytes; its three body bytes come back
as they are. -/
theorem ParsePacket_brotli_passthrough_witness :
    ParsePacket zlibDecode [0, 0, 0, 19, 0, 16, 0, 3, 0, 0, 0, 5, 0, 0, 0, 0, 0x0b, 0x00, 0x80] =
      .ok ({ PacketLength := 19, HeaderLength := 16, Version := 3, Operation := 5,
             SequenceID := 0 }, [0x0b, 0x00, 0x80]) :=
  (ParsePacket_brotli_passthrough zlibDecode
    [0, 0, 0, 19, 0, 16, 0, 3, 0, 0, 0, 5, 0, 0, 0, 0, 0x0b, 0x00, 0x80]
    (by decide) (by decide) (by decide) (by decide)).trans (by decide)

/-- On a zeroed buffer of at least 16 bytes the five `Put` calls write the header
bytes and leave the rest zero. -/
theorem writeHeader_make (n : Nat) (h : PacketHeader) (hn : 16 ≤ n) :
    writeHeader (make n) h = some (headerBytes h ++ List.replicate (n - 16) 0) := by
  obtain ⟨k, rfl⟩ : ∃ k, n = 16 + k := ⟨n - 16, by omega⟩
  have hm : make (16 + k) = List.replicate 16 0 ++ List.replicate k 0 := by
    simp [make, List.replicate_add]
  rw [hm]
  simp [writeHeader, putUint32, putUint16, List.replicate, headerBytes, Option.bind]

/-- Go `copy(packet[16:], body)` after a 16-byte header, when the room left is at
most the body. -/
theorem copyAt_header (hdr body : List Byte) (m : Nat) (hh : hdr.length = 16)
    (hm : m ≤ body.length) :
    copyAt (hdr ++ List.replicate m 0) 16 body = some (hdr ++ body.take m) := by
  have h1 : 16 ≤ (hdr ++ List.replicate m (0 : Byte)).length := by simp [hh]
  have h2 : (hdr ++ List.replicate m (0 : Byte)).length - 16 = m := by simp [hh]
  have h3 : List.take 16 (hdr ++ List.replicate m (0 : Byte)) = hdr := by
    rw [← hh]; simp
  have h4 : List.drop (16 + min body.length m) (hdr ++ List.replicate m (0 : Byte)) = [] := by
    apply List.drop_of_length_le
    simp [hh]; omega
  rw [copyAt, if_pos h1, h2, h3, h4, List.append_nil]

/-- What `CreateAuthPacket` returns whenever the wrapped length field is at least 16. -/
theorem CreateAuthPacket_eq (jsonMarshal : AuthBody → Except String (List Byte))
    (roomID : Int) (token buvid3 js : List Byte)
    (hjs : jsonMarshal
      { UID := 0, RoomID := roomID, ProtoVer := 3, Buvid := buvid3,
        Platform := ascii "web", AuthType := 2, Key := token } = .ok js)
    (hsz : 16 ≤ (16 + js.length) % 2 ^ 32) :
    CreateAuthPacket jsonMarshal roomID token buvid3 =
      .ok (headerBytes
            { PacketLength := (16 + js.length) % 2 ^ 32, HeaderLength := 16,
              Version := 1, Operation := OpAuth, SequenceID := 1 }
          ++ js.take ((16 + js.length) % 2 ^ 32 - 16)) := by
  have hle : (16 + js.length) % 2 ^ 32 - 16 ≤ js.length := by
    have := Nat.mod_le (16 + js.length) (2 ^ 32)
    omega
  unfold CreateAuthPacket
  simp only [hjs, HeaderLength]
  rw [writeHeader_make _ _ hsz]
  simp only [Option.bind]
  rw [copyAt_header _ _ _ (by simp [headerBytes]) hle]

/-- Reading back a header written by the builders, when every field fits its width. -/
theorem readHeader_headerBytes (h : PacketHeader) (rest : List Byte)
    (h1 : h.PacketLength < 2 ^ 32) (h2 : h.HeaderLength < 2 ^ 16) (h3 : h.Version < 2 ^ 16)
    (h4 : h.Operation < 2 ^ 32) (h5 : h.SequenceID < 2 ^ 32) :
    readHeader (headerBytes h ++ rest) = h := by
  obtain ⟨pl, hl, v, op, sq⟩ := h
  simp only at h1 h2 h3 h4 h5
  rw [readHeader_bytes]
  simp only [headerBytes, List.cons_append, List.getD_cons_zero, List.getD_cons_succ, Fin.ofNat,
    PacketHeader.mk.injEq]
  refine ⟨?_, ?_, ?_, ?_, ?_⟩ <;> omega

/-- The string encoder copies a run of the letter `a`. -/
theorem escapeString_replicate (n : Nat) :
    escapeString n (List.replicate n (0x61 : Byte)) = List.replicate n 0x61 := by
  induction n with
  | zero => rfl
  | succ k ih =>
    have h1 : ((0x61 : Byte)).val < 0x80 := by decide
    have h2 : escapeAscii (0x61 : Byte) = [0x61] := by decide
    rw [List.replicate_succ, escapeString, if_pos h1, h2, ih]
    rfl

/-- C6 (as amended): for every roomId, token and deviceId for which the JSON
serialisation `js` of the AuthBody (uid 0, roomid roomId, protover 3, buvid
deviceId, platform "web", type 2, key token) satisfies `16 + len(js) < 2^32`,
`CreateAuthPacket` returns without error the 16 header bytes followed by `js`: the
total length is `16 + len(js)`, and the header decodes big-endian to
packetLength `16 + len(js)`, headerLength 16, version 1, operation 7, sequenceId 1. -/
theorem CreateAuthPacket_layout (jsonMarshal : AuthBody → Except String (List Byte))
    (roomID : Int) (token buvid3 js : List Byte)
    (hjs : jsonMarshal
      { UID := 0, RoomID := roomID, ProtoVer := 3, Buvid := buvid3,
        Platform := ascii "web", AuthType := 2, Key := token } = .ok js)
    (hsz : 16 + js.length < 2 ^ 32) :
    CreateAuthPacket jsonMarshal roomID token buvid3 =
        .ok (headerBytes
              { PacketLength := 16 + js.length, HeaderLength := 16, Version := 1,
                Operation := 7, SequenceID := 1 }
            ++ js)
      ∧ (headerBytes
              { PacketLength := 16 + js.length, HeaderLength := 16, Version := 1,
                Operation := 7, SequenceID := 1 }
            ++ js).length = 16 + js.length
      ∧ readHeader (headerBytes
              { PacketLength := 16 + js.length, HeaderLength := 16, Version := 1,
                Operation := 7, SequenceID := 1 }
            ++ js) =
          { PacketLength := 16 + js.length, HeaderLength := 16, Version := 1,
            Operation := 7, SequenceID := 1 }
      ∧ List.drop 16 (headerBytes
              { PacketLength := 16 + js.length, HeaderLength := 16, Version := 1,
                Operation := 7, SequenceID := 1 }
            ++ js) = js := by
  have hmod : (16 + js.length) % 2 ^ 32 = 16 + js.length := Nat.mod_eq_of_lt hsz
  refine ⟨?_, ?_, ?_, ?_⟩
  · have h := CreateAuthPacket_eq jsonMarshal roomID token buvid3 js hjs (by omega)
    rw [hmod] at h
    simpa [OpAuth] using h
  · simp [headerBytes]; omega
  · exact readHeader_headerBytes _ _ hsz (by norm_num) (by norm_num) (by norm_num)
      (by norm_num)
  · simp [headerBytes]

/-- C6, witness: `CreateAuthPacket(42, "tok", "dev")` is the header with
packetLength 102 followed by the 86 bytes of the JSON object. -/
theorem CreateAuthPacket_layout_witness :
    CreateAuthPacket jsonMarshalAuthBody 42 (ascii "tok") (ascii "dev") =
      .ok ([0, 0, 0, 102, 0, 16, 0, 1, 0, 0, 0, 7, 0, 0, 0, 1] ++ ascii
        "\x7b\"uid\":0,\"roomid\":42,\"protover\":3,\"buvid\":\"dev\",\"platform\":\"web\",\"type\":2,\"key\":\"tok\"\x7d") :=
  (CreateAuthPacket_layout jsonMarshalAuthBody 42 (ascii "tok") (ascii "dev")
    (ascii
      "\x7b\"uid\":0,\"roomid\":42,\"protover\":3,\"buvid\":\"dev\",\"platform\":\"web\",\"type\":2,\"key\":\"tok\"\x7d")
    (by decide) (by decide)).1.trans (by decide)

/-- C6, counterexample: with a token of 2^32 letters `a` the JSON body has
`77 + 2^32 + 2` bytes, the length field wraps to `uint32(16 + len(json)) = 95`,
and the packet returned is 95 bytes long: the header followed by the first 79
bytes of the JSON only, although the JSON has 4294967375 bytes. -/
theorem CreateAuthPacket_length_wraps :
    jsonMarshalAuthBody
        { UID := 0, RoomID := 0, ProtoVer := 3, Buvid := [], Platform := ascii "web",
          AuthType := 2, Key := List.replicate 4294967296 0x61 } =
        .ok (ascii
          "\x7b\"uid\":0,\"roomid\":0,\"protover\":3,\"buvid\":\"\",\"platform\":\"web\",\"type\":2,\"key\":\""
          ++ List.replicate 4294967296 0x61 ++ ascii "\"\x7d")
      ∧ CreateAuthPacket jsonMarshalAuthBody 0 (List.replicate 4294967296 0x61) [] =
        .ok ([0, 0, 0, 95, 0, 16, 0, 1, 0, 0, 0, 7, 0, 0, 0, 1] ++ ascii
          "\x7b\"uid\":0,\"roomid\":0,\"protover\":3,\"buvid\":\"\",\"platform\":\"web\",\"type\":2,\"key\":\"aa")
      ∧ (ascii
          "\x7b\"uid\":0,\"roomid\":0,\"protover\":3,\"buvid\":\"\",\"platform\":\"web\",\"type\":2,\"key\":\""
          ++ List.replicate 4294967296 0x61 ++ ascii "\"\x7d").length = 4294967375 := by
  have hgen : ∀ t : List Byte, escapeString t.length t = t →
      jsonMarshalAuthBody
        { UID := 0, RoomID := 0, ProtoVer := 3, Buvid := [], Platform := ascii "web",
          AuthType := 2, Key := t } =
        .ok (ascii
          "\x7b\"uid\":0,\"roomid\":0,\"protover\":3,\"buvid\":\"\",\"platform\":\"web\",\"type\":2,\"key\":\""
          ++ t ++ ascii "\"\x7d") := by
    intro t ht
    have hp : ascii "\x7b\"uid\":" ++ jsonInt 0 ++ ascii ",\"roomid\":" ++ jsonInt 0
        ++ ascii ",\"protover\":" ++ jsonInt 3 ++ ascii ",\"buvid\":" ++ jsonString []
        ++ ascii ",\"platform\":" ++ jsonString (ascii "web") ++ ascii ",\"type\":"
        ++ jsonInt 2 ++ ascii ",\"key\":" ++ [0x22] = ascii
          "\x7b\"uid\":0,\"roomid\":0,\"protover\":3,\"buvid\":\"\",\"platform\":\"web\",\"type\":2,\"key\":\"" := by
      decide
    have hs : ([0x22] : List Byte) ++ ascii "\x7d" = ascii "\"\x7d" := by decide
    rw [← hp, ← hs]
    simp only [jsonMarshalAuthBody, jsonString, ht, List.append_assoc]
  have hrep : ∀ n : Nat, escapeString (List.replicate n (0x61 : Byte)).length
      (List.replicate n (0x61 : Byte)) = List.replicate n 0x61 := by
    intro n
    rw [List.length_replicate]
    exact escapeString_replicate n
  have hwrap : ∀ n : Nat, n = 4294967296 →
      CreateAuthPacket jsonMarshalAuthBody 0 (List.replicate n 0x61) [] =
        .ok ([0, 0, 0, 95, 0, 16, 0, 1, 0, 0, 0, 7, 0, 0, 0, 1] ++ ascii
          "\x7b\"uid\":0,\"roomid\":0,\"protover\":3,\"buvid\":\"\",\"platform\":\"web\",\"type\":2,\"key\":\"aa") := by
    intro n hn
    have hl : (ascii
          "\x7b\"uid\":0,\"roomid\":0,\"protover\":3,\"buvid\":\"\",\"platform\":\"web\",\"type\":2,\"key\":\"").length
        = 77 := by decide
    have hl2 : (ascii "\"\x7d").length = 2 := by decide
    have hlen : (ascii
          "\x7b\"uid\":0,\"roomid\":0,\"protover\":3,\"buvid\":\"\",\"platform\":\"web\",\"type\":2,\"key\":\""
          ++ List.replicate n 0x61 ++ ascii "\"\x7d").length = 79 + n := by
      simp only [List.length_append, List.length_replicate, hl, hl2]; omega
    have hmod : (16 + (79 + n)) % 2 ^ 32 = 95 := by subst hn; norm_num
    have h := CreateAuthPacket_eq jsonMarshalAuthBody 0 (List.replicate n 0x61) [] _
      (hgen _ (hrep n)) (by rw [hlen, hmod]; norm_num)
    rw [h, hlen, hmod]
    have htake : List.take (95 - 16) (ascii
          "\x7b\"uid\":0,\"roomid\":0,\"protover\":3,\"buvid\":\"\",\"platform\":\"web\",\"type\":2,\"key\":\""
          ++ List.replicate n 0x61 ++ ascii "\"\x7d") = ascii
          "\x7b\"uid\":0,\"roomid\":0,\"protover\":3,\"buvid\":\"\",\"platform\":\"web\",\"type\":2,\"key\":\""
          ++ [0x61, 0x61] := by
      obtain ⟨m, rfl⟩ : ∃ m, n = m + 2 := ⟨n - 2, by omega⟩
      rw [List.append_assoc, List.take_append_eq_append_take, hl,
        List.take_of_length_le (by rw [hl]; omega)]
      simp [List.replicate_succ]
    rw [htake]
    decide
  have hlong : (ascii
          "\x7b\"uid\":0,\"roomid\":0,\"protover\":3,\"buvid\":\"\",\"platform\":\"web\",\"type\":2,\"key\":\""
          ++ List.replicate 4294967296 0x61 ++ ascii "\"\x7d").length = 4294967375 := by
    have hl : (ascii
          "\x7b\"uid\":0,\"roomid\":0,\"protover\":3,\"buvid\":\"\",\"platform\":\"web\",\"type\":2,\"key\":\"").length
        = 77 := by decide
    have hl2 : (ascii "\"\x7d").length = 2 := by decide
    simp only [List.length_append, List.length_replicate, hl, hl2]
  exact ⟨hgen _ (hrep _), hwrap _ rfl, hlong⟩

/-- C5: `CreateHeartbeatPacket` returns the constant 16 bytes
`00 00 00 10 00 10 00 01 00 00 00 02 00 00 00 01`, which decode to packetLength 16,
headerLength 16, version 1, operation 2 and sequenceId 1. -/
theorem CreateHeartbeatPacket_bytes :
    CreateHeartbeatPacket = .ok [0, 0, 0, 16, 0, 16, 0, 1, 0, 0, 0, 2, 0, 0, 0, 1]
      ∧ ([0, 0, 0, 16, 0, 16, 0, 1, 0, 0, 0, 2, 0, 0, 0, 1] : List Byte).length = 16
      ∧ readHeader [0, 0, 0, 16, 0, 16, 0, 1, 0, 0, 0, 2, 0, 0, 0, 1] =
          { PacketLength := 16, HeaderLength := 16, Version := 1, Operation := OpHeartbeat,
            SequenceID := 1 }
      ∧ OpHeartbeat = 2 := by
  decide

/-! ### Connection manager -/

/-- While the manager is not shut down and the gate has room, `Add` admits. -/
theorem Add_admits (cm : ConnectionManager) (pick : Nat) (conn : Conn) (cancel : CancelFunc)
    (hs : cm.shutdown = false) (hroom : cm.sem < cm.semCap) :
    cm.Add pick conn cancel =
      (true,
        { cm with
          sem := cm.sem + 1
          conns := insertConn cm.conns conn cancel
          stats :=
            { cm.stats with
              ActiveConnections := addInt32 cm.stats.ActiveConnections 1
              TotalConnections := addInt32 cm.stats.TotalConnections 1 } }) := by
  simp [ConnectionManager.Add, selectAdd, hs, hroom]

/-- While the manager is not shut down and the gate is saturated, `Add` takes
the `default` branch: it returns false at once and changes nothing. -/
theorem Add_rejects (cm : ConnectionManager) (pick : Nat) (conn : Conn) (cancel : CancelFunc)
    (hs : cm.shutdown = false) (hfull : cm.semCap ≤ cm.sem) :
    cm.Add pick conn cancel = (false, cm) := by
  have : ¬ cm.sem < cm.semCap := by omega
  simp [ConnectionManager.Add, selectAdd, hs, this]

/-- With a unit in the gate `Remove` returns, having taken one unit out. -/
theorem Remove_returns (cm : ConnectionManager) (c : Conn) (h : 0 < cm.sem) :
    ∃ s : ConnectionManager, cm.Remove c = .returned s ∧ s.sem = cm.sem - 1
      ∧ s.semCap = cm.semCap ∧ s.shutdown = cm.shutdown := by
  have hne : ¬ cm.sem = 0 := by omega
  cases hl : lookupConn cm.conns c with
  | none =>
    have hr : cm.Remove c = .returned
        { cm with
          sem := cm.sem - 1
          stats :=
            { cm.stats with ActiveConnections := addInt32 cm.stats.ActiveConnections (-1) } } := by
      simp only [ConnectionManager.Remove, hl, if_neg hne]
    exact ⟨_, hr, rfl, rfl, rfl⟩
  | some cf =>
    have hr : cm.Remove c = .returned
        { cm with
          cancelled := cm.cancelled ++ [cf]
          conns := deleteConn cm.conns c
          sem := cm.sem - 1
          stats :=
            { cm.stats with ActiveConnections := addInt32 cm.stats.ActiveConnections (-1) } } := by
      simp only [ConnectionManager.Remove, hl, if_neg hne]
    exact ⟨_, hr, rfl, rfl, rfl⟩

/-- A run of `Add` calls that fits in the gate admits every one of them. -/
theorem addAll_admits (reqs : List (Nat × Conn × CancelFunc)) :
    ∀ cm : ConnectionManager, cm.shutdown = false → cm.sem + reqs.length ≤ cm.semCap →
      (addAll cm reqs).1 = List.replicate reqs.length true
        ∧ (addAll cm reqs).2.sem = cm.sem + reqs.length
        ∧ (addAll cm reqs).2.semCap = cm.semCap
        ∧ (addAll cm reqs).2.shutdown = false := by
  induction reqs with
  | nil => intro cm hs _; simp [addAll, hs]
  | cons r rest ih =>
    intro cm hs hroom
    simp only [List.length_cons] at hroom
    have hadd := Add_admits cm r.1 r.2.1 r.2.2 hs (by omega)
    have h := ih (cm.Add r.1 r.2.1 r.2.2).2 (by rw [hadd]; exact hs)
      (by rw [hadd]; show cm.sem + 1 + rest.length ≤ cm.semCap; omega)
    have e1 : (cm.Add r.1 r.2.1 r.2.2).2.sem = cm.sem + 1 := by rw [hadd]
    have e2 : (cm.Add r.1 r.2.1 r.2.2).2.semCap = cm.semCap := by rw [hadd]
    have e3 : (cm.Add r.1 r.2.1 r.2.2).1 = true := by rw [hadd]
    rw [e1, e2] at h
    simp only [addAll, e3, List.length_cons, List.replicate_succ]
    refine ⟨by rw [h.1], ?_, h.2.2.1, h.2.2.2⟩
    rw [h.2.1]; omega

/-- A run of `Add` calls splits at any point. -/
theorem addAll_append (a b : List (Nat × Conn × CancelFunc)) :
    ∀ cm : ConnectionManager,
      addAll cm (a ++ b) =
        ((addAll cm a).1 ++ (addAll (addAll cm a).2 b).1, (addAll (addAll cm a).2 b).2) := by
  induction a with
  | nil => intro cm; simp [addAll]
  | cons r rest ih => intro cm; simp [addAll, ih]

/-- C7: on a fresh manager of capacity `n ≥ 1`, `n + 1` successive `Add` calls
return true `n` times and then false once (through the `default` branch, so
without blocking); and after `Remove` of an admitted connection, which returns,
a further `Add` returns true. -/
theorem Add_admission_bound (n : Nat) (hn : 1 ≤ n) (reqs : List (Nat × Conn × CancelFunc))
    (hlen : reqs.length = n + 1) :
    (addAll (NewConnectionManager n) reqs).1 = List.replicate n true ++ [false]
      ∧ ∀ c ∈ (reqs.take n).map (fun r => r.2.1), ∀ (pick : Nat) (conn : Conn)
          (cancel : CancelFunc), ∃ s : ConnectionManager,
            (addAll (NewConnectionManager n) reqs).2.Remove c = .returned s
              ∧ (s.Add pick conn cancel).1 = true := by
  obtain ⟨last, hsplit⟩ : ∃ last, reqs = reqs.take n ++ [last] := by
    have hd : (reqs.drop n).length = 1 := by simp [hlen]
    match hdr : reqs.drop n, hd with
    | [x], _ => exact ⟨x, by rw [← hdr, List.take_append_drop]⟩
  have htl : (reqs.take n).length = n := by simp [hlen]
  have h0 := addAll_admits (reqs.take n) (NewConnectionManager n) rfl
    (by simp [NewConnectionManager, hlen])
  rw [htl] at h0
  obtain ⟨hres, hsem, hcap, hshut⟩ := h0
  have hs0 : (NewConnectionManager n).sem + n = n := by simp [NewConnectionManager]
  have hc0 : (NewConnectionManager n).semCap = n := rfl
  rw [hs0] at hsem
  rw [hc0] at hcap
  have hrej := Add_rejects (addAll (NewConnectionManager n) (reqs.take n)).2 last.1 last.2.1
    last.2.2 hshut (by rw [hsem, hcap])
  have hfinal : addAll (NewConnectionManager n) reqs =
      (List.replicate n true ++ [false], (addAll (NewConnectionManager n) (reqs.take n)).2) := by
    conv_lhs => rw [hsplit]
    rw [addAll_append, hres]
    simp [addAll, hrej]
  rw [hfinal]
  refine ⟨rfl, ?_⟩
  intro c _ pick conn cancel
  obtain ⟨s, hs, hs1, hs2, hs3⟩ :=
    Remove_returns (addAll (NewConnectionManager n) (reqs.take n)).2 c (by rw [hsem]; omega)
  refine ⟨s, hs, ?_⟩
  rw [Add_admits s pick conn cancel (by rw [hs3, hshut]) (by rw [hs1, hs2, hsem, hcap]; omega)]

/-- C7, witness: capacity 2, three `Add` calls admit two and reject one; after
`Remove` of the first connection a fourth `Add` is admitted. -/
theorem Add_admission_bound_witness :
    (addAll (NewConnectionManager 2) [(0, 10, 100), (1, 11, 101), (0, 12, 102)]).1 =
        [true, true, false]
      ∧ ∃ s : ConnectionManager,
          (addAll (NewConnectionManager 2)
            [(0, 10, 100), (1, 11, 101), (0, 12, 102)]).2.Remove 10 = .returned s
            ∧ (s.Add 0 13 103).1 = true :=
  ⟨(Add_admission_bound 2 (by decide) [(0, 10, 100), (1, 11, 101), (0, 12, 102)] rfl).1,
    (Add_admission_bound 2 (by decide) [(0, 10, 100), (1, 11, 101), (0, 12, 102)] rfl).2 10
      (by decide) 0 13 103⟩

/-- C8, the code at the failing input: on a manager of capacity 1 that has been
shut down by `CloseAll` and has its slot free, both the send on `sem` and the
receive from `shutdown.Done()` can proceed; when `select` picks the send, `Add`
returns true, tracks the connection and increments both counters. -/
theorem Add_after_CloseAll_admits :
    (NewConnectionManager 1).CloseAll.shutdown = true
      ∧ (NewConnectionManager 1).CloseAll.Add 0 7 70 =
        (true,
          { conns := [(7, 70)], semCap := 1, sem := 1, shutdown := true,
            stats := { ActiveConnections := 1, TotalConnections := 1, Errors := 0,
                       MessagesForwarded := 0 },
            cancelled := [], closed := [] }) := by
  decide

/-- Decrementing an `int32` above its minimum does not wrap. -/
theorem addInt32_pred (x : Int) (hlo : -2 ^ 31 < x) (hhi : x < 2 ^ 31) :
    addInt32 x (-1) = x - 1 := by
  unfold addInt32
  omega

/-- After `delete(cm.conns, c)` the key `c` is absent. -/
theorem lookupConn_deleteConn_self (l : List (Conn × CancelFunc)) (c : Conn) :
    lookupConn (deleteConn l c) c = none := by
  simp [lookupConn, deleteConn, List.find?_filter]

/-- Removal `delete(cm.conns, c)` leaves every other key as it was. -/
theorem lookupConn_deleteConn_other (l : List (Conn × CancelFunc)) (c d : Conn) (hd : d ≠ c) :
    lookupConn (deleteConn l c) d = lookupConn l d := by
  simp only [lookupConn, deleteConn, List.find?_filter]
  congr 2
  funext a
  by_cases h : a.1 = d
  · simp [h, hd]
  · simp [h]

/-- A run of `Remove` calls no longer than the units in the gate returns, and
takes one unit and one active connection per call. -/
theorem removeAll_returns (l : List Conn) :
    ∀ cm : ConnectionManager, l.length ≤ cm.sem →
      (l.length : Int) ≤ cm.stats.ActiveConnections → cm.stats.ActiveConnections < 2 ^ 31 →
      ∃ s : ConnectionManager, removeAll cm l = .returned s
        ∧ s.stats.ActiveConnections = cm.stats.ActiveConnections - l.length
        ∧ s.sem = cm.sem - l.length := by
  induction l with
  | nil => intro cm _ _ _; exact ⟨cm, rfl, by simp, by simp⟩
  | cons c rest ih =>
    intro cm h1 h2 h3
    simp only [List.length_cons, Nat.cast_add, Nat.cast_one] at h1 h2
    have hne : ¬ cm.sem = 0 := by omega
    have hdec := addInt32_pred cm.stats.ActiveConnections (by omega) h3
    have key : ∃ s : ConnectionManager, cm.Remove c = .returned s
        ∧ s.stats.ActiveConnections = cm.stats.ActiveConnections - 1 ∧ s.sem = cm.sem - 1 := by
      cases hl : lookupConn cm.conns c with
      | none =>
        exact ⟨{ cm with
            sem := cm.sem - 1
            stats :=
              { cm.stats with
                ActiveConnections := addInt32 cm.stats.ActiveConnections (-1) } },
          by simp only [ConnectionManager.Remove, hl, if_neg hne], hdec, rfl⟩
      | some cf =>
        exact ⟨{ cm with
            cancelled := cm.cancelled ++ [cf]
            conns := deleteConn cm.conns c
            sem := cm.sem - 1
            stats :=
              { cm.stats with
                ActiveConnections := addInt32 cm.stats.ActiveConnections (-1) } },
          by simp only [ConnectionManager.Remove, hl, if_neg hne], hdec, rfl⟩
    obtain ⟨s, hs, hsA, hsS⟩ := key
    obtain ⟨t, ht, htA, htS⟩ := ih s (by omega) (by omega) (by omega)
    refine ⟨t, by simp only [removeAll, hs, ht], ?_, ?_⟩
    · rw [htA, hsA]; simp only [List.length_cons, Nat.cast_add, Nat.cast_one]; omega
    · rw [htS, hsS]; simp only [List.length_cons]; omega

/-- C9 (as amended): `CloseAll` on a manager with `K` tracked sessions and
`ActiveConnections = K` puts the manager in shutdown, invokes the cancel function
of every tracked session and closes every tracked socket, and leaves the tracking
map, the gate and the counters as they were: `Stats().ActiveConnections` is still
`K`. It is 0 once the `K` sessions have each run their `Remove`. -/
theorem CloseAll_effect (cm : ConnectionManager) (K : Nat) (hK : cm.conns.length = K)
    (hA : cm.Stats.ActiveConnections = K) (hsem : K ≤ cm.sem) (h32 : K < 2 ^ 31) :
    cm.CloseAll.shutdown = true
      ∧ (∀ e ∈ cm.conns, e.2 ∈ cm.CloseAll.cancelled ∧ e.1 ∈ cm.CloseAll.closed)
      ∧ cm.CloseAll.Stats.ActiveConnections = K
      ∧ cm.CloseAll.Stats = cm.Stats
      ∧ cm.CloseAll.conns = cm.conns
      ∧ cm.CloseAll.sem = cm.sem
      ∧ ∃ s : ConnectionManager,
          removeAll cm.CloseAll (cm.conns.map (fun e => e.1)) = .returned s
            ∧ s.Stats.ActiveConnections = 0 := by
  have hA2 : cm.stats.ActiveConnections = K := hA
  refine ⟨rfl, ?_, hA, rfl, rfl, rfl, ?_⟩
  · intro e he
    constructor
    · simp only [ConnectionManager.CloseAll, List.mem_append, List.mem_map]
      exact Or.inr ⟨e, he, rfl⟩
    · simp only [ConnectionManager.CloseAll, List.mem_append, List.mem_map]
      exact Or.inr ⟨e, he, rfl⟩
  · have hlen : (cm.conns.map (fun e => e.1)).length = K := by simp [hK]
    obtain ⟨s, hs, hsA, _⟩ := removeAll_returns (cm.conns.map (fun e => e.1)) cm.CloseAll
      (by rw [hlen]; exact hsem)
      (by rw [hlen]; show (K : Int) ≤ cm.stats.ActiveConnections; rw [hA2])
      (by show cm.stats.ActiveConnections < 2 ^ 31; rw [hA2]; exact_mod_cast h32)
    refine ⟨s, hs, ?_⟩
    show s.stats.ActiveConnections = 0
    rw [hsA, hlen]
    show cm.stats.ActiveConnections - (K : Int) = 0
    rw [hA2]; omega

/-- C9, witness: two admitted sessions on a manager of capacity 2. -/
theorem CloseAll_effect_witness :
    (addAll (NewConnectionManager 2) [(0, 10, 100), (0, 11, 101)]).2.CloseAll.Stats.ActiveConnections
        = 2
      ∧ (addAll (NewConnectionManager 2) [(0, 10, 100), (0, 11, 101)]).2.CloseAll.cancelled
        = [101, 100]
      ∧ (addAll (NewConnectionManager 2) [(0, 10, 100), (0, 11, 101)]).2.CloseAll.closed
        = [11, 10] :=
  ⟨(CloseAll_effect (addAll (NewConnectionManager 2) [(0, 10, 100), (0, 11, 101)]).2 2
      (by decide) (by decide) (by decide) (by decide)).2.2.1,
    by decide, by decide⟩

/-- C9, counterexample: with one admitted session (`K = 1`), after `CloseAll` the
session's cancel function has been invoked and its socket closed, but
`Stats().ActiveConnections` is 1, not 0. -/
theorem CloseAll_leaves_active :
    ((NewConnectionManager 1).Add 0 7 70).1 = true
      ∧ ((NewConnectionManager 1).Add 0 7 70).2.Stats.ActiveConnections = 1
      ∧ ((NewConnectionManager 1).Add 0 7 70).2.CloseAll.cancelled = [70]
      ∧ ((NewConnectionManager 1).Add 0 7 70).2.CloseAll.closed = [7]
      ∧ ((NewConnectionManager 1).Add 0 7 70).2.CloseAll.Stats.ActiveConnections = 1
      ∧ ((NewConnectionManager 1).Add 0 7 70).2.CloseAll.Stats.ActiveConnections ≠ 0 := by
  decide

/-- What a successful `Add` of `c` leaves behind: the entry of `c`, a unit in
the gate, and a positive `ActiveConnections` (no wrap below `2^31 - 1`). -/
theorem Add_leaves_tracked (cm : ConnectionManager) (pick : Nat) (c : Conn)
    (cancel : CancelFunc) (hadm : (cm.Add pick c cancel).1 = true)
    (hlo : 0 ≤ cm.stats.ActiveConnections) (hhi : cm.stats.ActiveConnections < 2 ^ 31 - 1) :
    lookupConn (cm.Add pick c cancel).2.conns c = some cancel
      ∧ 0 < (cm.Add pick c cancel).2.sem
      ∧ 0 < (cm.Add pick c cancel).2.stats.ActiveConnections
      ∧ (cm.Add pick c cancel).2.stats.ActiveConnections < 2 ^ 31 := by
  have hinc : addInt32 cm.stats.ActiveConnections 1 = cm.stats.ActiveConnections + 1 := by
    unfold addInt32
    omega
  unfold ConnectionManager.Add at hadm ⊢
  cases hsel : selectAdd pick (decide (cm.sem < cm.semCap)) cm.shutdown with
  | send =>
    simp only [hinc]
    refine ⟨by simp [lookupConn, insertConn], Nat.succ_pos _, by omega, by omega⟩
  | done => simp [hsel] at hadm
  | default => simp [hsel] at hadm

/-- C10 (as amended): in a state where connection `c` is tracked with cancel
function `cancel`, the gate holds at least one unit and the `int32` counter
`ActiveConnections` is above its minimum `-2^31`, `Remove(c)` returns, having
invoked `cancel` (and nothing else), removed the entry of `c`, taken one unit out
of the gate and decreased `ActiveConnections` by exactly 1; `TotalConnections`,
`Errors`, `MessagesForwarded` and the entries of all other connections are
unchanged. -/
theorem Remove_tracked (cm : ConnectionManager) (c : Conn) (cancel : CancelFunc)
    (htracked : lookupConn cm.conns c = some cancel) (hunit : 0 < cm.sem)
    (hlo : -2 ^ 31 < cm.stats.ActiveConnections) (hhi : cm.stats.ActiveConnections < 2 ^ 31) :
    ∃ s : ConnectionManager, cm.Remove c = .returned s
      ∧ s.cancelled = cm.cancelled ++ [cancel]
      ∧ lookupConn s.conns c = none
      ∧ (∀ d : Conn, d ≠ c → lookupConn s.conns d = lookupConn cm.conns d)
      ∧ s.sem + 1 = cm.sem
      ∧ s.semCap = cm.semCap
      ∧ s.Stats.ActiveConnections = cm.Stats.ActiveConnections - 1
      ∧ s.Stats.TotalConnections = cm.Stats.TotalConnections
      ∧ s.Stats.Errors = cm.Stats.Errors
      ∧ s.Stats.MessagesForwarded = cm.Stats.MessagesForwarded
      ∧ s.closed = cm.closed
      ∧ s.shutdown = cm.shutdown := by
  have hne : ¬ cm.sem = 0 := by omega
  have hr : cm.Remove c = .returned
      { cm with
        cancelled := cm.cancelled ++ [cancel]
        conns := deleteConn cm.conns c
        sem := cm.sem - 1
        stats :=
          { cm.stats with ActiveConnections := addInt32 cm.stats.ActiveConnections (-1) } } := by
    simp only [ConnectionManager.Remove, htracked, if_neg hne]
  refine ⟨_, hr, rfl, lookupConn_deleteConn_self _ _,
    fun d hd => lookupConn_deleteConn_other _ _ _ hd, ?_, rfl, ?_, rfl, rfl, rfl, rfl, rfl⟩
  · show cm.sem - 1 + 1 = cm.sem
    omega
  · exact addInt32_pred _ hlo hhi

/-- C10, witness: two admitted connections on a manager of capacity 2; `Remove`
of the first one. -/
theorem Remove_tracked_witness :
    ∃ s : ConnectionManager,
      (addAll (NewConnectionManager 2) [(0, 10, 100), (0, 11, 101)]).2.Remove 10 = .returned s
        ∧ s.cancelled = [100]
        ∧ lookupConn s.conns 10 = none
        ∧ lookupConn s.conns 11 = some 101
        ∧ s.sem = 1
        ∧ s.Stats =
          { ActiveConnections := 1, TotalConnections := 2, Errors := 0, MessagesForwarded := 0 } :=
  match Remove_tracked (addAll (NewConnectionManager 2) [(0, 10, 100), (0, 11, 101)]).2 10 100
    (by decide) (by decide) (by decide) (by decide) with
  | ⟨s, h1, h2, h3, h4, h5, _, h7, h8, h9, h10, _, _⟩ =>
    ⟨s, h1, h2.trans (by decide), h3, (h4 11 (by decide)).trans (by decide),
      Nat.add_right_cancel (h5.trans (by decide : _ = 1 + 1)),
      by
        have e7 : s.Stats.ActiveConnections = 1 := h7.trans (by decide)
        have e8 : s.Stats.TotalConnections = 2 := h8.trans (by decide)
        have e9 : s.Stats.Errors = 0 := h9.trans (by decide)
        have e10 : s.Stats.MessagesForwarded = 0 := h10.trans (by decide)
        simp only [ConnectionManager.Stats] at e7 e8 e9 e10 ⊢
        rw [e7, e8, e9, e10]⟩

/-! ### Accounting -/

/-- Adding 1 to an `int32` that holds `k` gives the `int32` that holds `k + 1`. -/
theorem addInt32_wrapInt32 (k : Int) : addInt32 (wrapInt32 k) 1 = wrapInt32 (k + 1) := by
  unfold addInt32 wrapInt32
  omega

/-- An integer within the `int32` range is held exactly. -/
theorem wrapInt32_eq (k : Int) (hlo : -2 ^ 31 ≤ k) (hhi : k < 2 ^ 31) : wrapInt32 k = k := by
  unfold wrapInt32
  omega

/-- An `Add` that returns false leaves the manager as it was. -/
theorem Add_false_unchanged (cm : ConnectionManager) (pick : Nat) (conn : Conn)
    (cancel : CancelFunc) (h : (cm.Add pick conn cancel).1 = false) :
    (cm.Add pick conn cancel).2 = cm := by
  unfold ConnectionManager.Add at h ⊢
  cases hsel : selectAdd pick (decide (cm.sem < cm.semCap)) cm.shutdown with
  | send => simp [hsel] at h
  | done => rfl
  | default => rfl

/-- With the gate empty `Remove` stays blocked. -/
theorem Remove_blocks (cm : ConnectionManager) (c : Conn) (h : cm.sem = 0) :
    ∃ s : ConnectionManager, cm.Remove c = .blocked s := by
  unfold ConnectionManager.Remove
  cases hl : lookupConn cm.conns c with
  | none => exact ⟨_, if_pos h⟩
  | some cf => exact ⟨_, if_pos h⟩

/-- With a unit in the gate `Remove` returns; what it leaves of the gate and of
the counters. -/
theorem Remove_returns_stats (cm : ConnectionManager) (c : Conn) (h : cm.sem ≠ 0) :
    ∃ s : ConnectionManager, cm.Remove c = .returned s ∧ s.sem = cm.sem - 1
      ∧ s.semCap = cm.semCap ∧ s.shutdown = cm.shutdown
      ∧ s.stats.ActiveConnections = addInt32 cm.stats.ActiveConnections (-1)
      ∧ s.stats.TotalConnections = cm.stats.TotalConnections := by
  unfold ConnectionManager.Remove
  cases hl : lookupConn cm.conns c with
  | none => exact ⟨_, if_neg h, rfl, rfl, rfl, rfl, rfl⟩
  | some cf => exact ⟨_, if_neg h, rfl, rfl, rfl, rfl, rfl⟩

/-- The accounting invariant: capacity `n`, not shut down, the gate within its
capacity, `ActiveConnections` equal to the occupied slots, `TotalConnections` the
`int32` of the number `k` of admitted `Add` calls, which is at least the occupied
slots. -/
theorem runCalls_invariant (n : Nat) (hn : n < 2 ^ 31) (calls : List Call) :
    ∀ (cm : ConnectionManager) (k : Nat) (cm2 : ConnectionManager) (k2 : Nat),
      cm.semCap = n → cm.shutdown = false → cm.sem ≤ n →
      cm.stats.ActiveConnections = cm.sem → cm.stats.TotalConnections = wrapInt32 k →
      cm.sem ≤ k → runCalls (cm, k) calls = some (cm2, k2) →
      cm2.semCap = n ∧ cm2.shutdown = false ∧ cm2.sem ≤ n
        ∧ cm2.stats.ActiveConnections = cm2.sem
        ∧ cm2.stats.TotalConnections = wrapInt32 k2 ∧ cm2.sem ≤ k2 := by
  induction calls with
  | nil =>
    intro cm k cm2 k2 h1 h2 h3 h4 h5 h6 hrun
    simp only [runCalls, Option.some.injEq, Prod.mk.injEq] at hrun
    obtain ⟨rfl, rfl⟩ := hrun
    exact ⟨h1, h2, h3, h4, h5, h6⟩
  | cons c rest ih =>
    intro cm k cm2 k2 h1 h2 h3 h4 h5 h6 hrun
    cases c with
    | add pick conn cancel =>
      simp only [runCalls] at hrun
      by_cases hroom : cm.sem < cm.semCap
      · have hadd := Add_admits cm pick conn cancel h2 hroom
        have e1 : (cm.Add pick conn cancel).1 = true := by rw [hadd]
        have e2 : (cm.Add pick conn cancel).2.sem = cm.sem + 1 := by rw [hadd]
        have e3 : (cm.Add pick conn cancel).2.semCap = cm.semCap := by rw [hadd]
        have e4 : (cm.Add pick conn cancel).2.shutdown = cm.shutdown := by rw [hadd]
        have e5 : (cm.Add pick conn cancel).2.stats.ActiveConnections
            = addInt32 cm.stats.ActiveConnections 1 := by rw [hadd]
        have e6 : (cm.Add pick conn cancel).2.stats.TotalConnections
            = addInt32 cm.stats.TotalConnections 1 := by rw [hadd]
        rw [if_pos e1] at hrun
        refine ih (cm.Add pick conn cancel).2 (k + 1) cm2 k2 (by rw [e3, h1]) (by rw [e4, h2])
          (by rw [e2]; omega) ?_ ?_ (by rw [e2]; omega) hrun
        · rw [e5, e2, h4]
          unfold addInt32
          push_cast
          omega
        · rw [e6, h5, addInt32_wrapInt32]
          push_cast
          rfl
      · have hrej := Add_rejects cm pick conn cancel h2 (by omega)
        have e1 : ¬ (cm.Add pick conn cancel).1 = true := by rw [hrej]; simp
        rw [if_neg e1, hrej] at hrun
        exact ih cm k cm2 k2 h1 h2 h3 h4 h5 h6 hrun
    | remove conn =>
      simp only [runCalls] at hrun
      by_cases hz : cm.sem = 0
      · obtain ⟨s, hs⟩ := Remove_blocks cm conn hz
        rw [hs] at hrun
        simp at hrun
      · obtain ⟨s, hs, s1, s2, s3, s4, s5⟩ := Remove_returns_stats cm conn hz
        rw [hs] at hrun
        refine ih s k cm2 k2 (by rw [s2, h1]) (by rw [s3, h2]) (by rw [s1]; omega) ?_
          (by rw [s5, h5]) (by rw [s1]; omega) hrun
        rw [s4, s1, h4]
        unfold addInt32
        omega
    | incrementErrors =>
      simp only [runCalls] at hrun
      exact ih cm.IncrementErrors k cm2 k2 h1 h2 h3 h4 h5 h6 hrun
    | incrementMessages =>
      simp only [runCalls] at hrun
      exact ih cm.IncrementMessages k cm2 k2 h1 h2 h3 h4 h5 h6 hrun

/-- C13 (as amended): in every state reached from `NewConnectionManager(n)`,
`n < 2^31`, by a sequence of `Add`, `Remove`, `IncrementErrors` and
`IncrementMessages` calls (a `Remove` on an empty gate blocks and ends no
sequence), `ActiveConnections` equals the number of occupied gate slots and lies
in `0..n`; `TotalConnections` is the `int32` holding the number `k` of `Add` calls
that returned true, so it equals `k` and is at least `ActiveConnections` as long
as `k < 2^31`; and an `Add` that returns false changes nothing at all. -/
theorem accounting_invariant (n : Nat) (hn : n < 2 ^ 31) (calls : List Call)
    (cm : ConnectionManager) (k : Nat)
    (hrun : runCalls (NewConnectionManager n, 0) calls = some (cm, k)) :
    cm.Stats.ActiveConnections = cm.sem
      ∧ 0 ≤ cm.Stats.ActiveConnections ∧ cm.Stats.ActiveConnections ≤ n
      ∧ cm.Stats.TotalConnections = wrapInt32 k
      ∧ (k < 2 ^ 31 → cm.Stats.TotalConnections = k
          ∧ cm.Stats.ActiveConnections ≤ cm.Stats.TotalConnections)
      ∧ ∀ (pick : Nat) (conn : Conn) (cancel : CancelFunc),
          (cm.Add pick conn cancel).1 = false → (cm.Add pick conn cancel).2 = cm := by
  obtain ⟨_, _, h3, h4, h5, h6⟩ := runCalls_invariant n hn calls (NewConnectionManager n) 0 cm k
    rfl rfl (Nat.zero_le n) rfl rfl (Nat.le_refl 0) hrun
  have hA : cm.Stats.ActiveConnections = cm.sem := h4
  have hT : cm.Stats.TotalConnections = wrapInt32 k := h5
  refine ⟨hA, by rw [hA]; omega, by rw [hA]; exact_mod_cast h3, hT, ?_,
    fun pick conn cancel h => Add_false_unchanged cm pick conn cancel h⟩
  intro hk
  have hk2 : wrapInt32 (k : Int) = k := wrapInt32_eq k (by omega) (by exact_mod_cast hk)
  rw [hT, hA, hk2]
  exact ⟨rfl, by exact_mod_cast h6⟩

/-- C13, witness: capacity 2; two admitted `Add` calls, one rejected, one
forwarded message, one `Remove`, one error. -/
theorem accounting_invariant_witness :
    runCalls (NewConnectionManager 2, 0)
        [.add 0 10 100, .add 0 11 101, .add 0 12 102, .incrementMessages, .remove 10,
          .incrementErrors] =
        some ({ conns := [(11, 101)], semCap := 2, sem := 1, shutdown := false,
                stats := { ActiveConnections := 1, TotalConnections := 2, Errors := 1,
                           MessagesForwarded := 1 },
                cancelled := [100], closed := [] }, 2)
      ∧ (1 : Int) = (1 : Nat) ∧ (0 : Int) ≤ 1 ∧ (1 : Int) ≤ (2 : Nat) :=
  ⟨by decide,
    (accounting_invariant 2 (by decide)
      [.add 0 10 100, .add 0 11 101, .add 0 12 102, .incrementMessages, .remove 10,
        .incrementErrors]
      { conns := [(11, 101)], semCap := 2, sem := 1, shutdown := false,
        stats := { ActiveConnections := 1, TotalConnections := 2, Errors := 1,
                   MessagesForwarded := 1 },
        cancelled := [100], closed := [] } 2 (by decide)).1,
    (accounting_invariant 2 (by decide)
      [.add 0 10 100, .add 0 11 101, .add 0 12 102, .incrementMessages, .remove 10,
        .incrementErrors]
      { conns := [(11, 101)], semCap := 2, sem := 1, shutdown := false,
        stats := { ActiveConnections := 1, TotalConnections := 2, Errors := 1,
                   MessagesForwarded := 1 },
        cancelled := [100], closed := [] } 2 (by decide)).2.1,
    (accounting_invariant 2 (by decide)
      [.add 0 10 100, .add 0 11 101, .add 0 12 102, .incrementMessages, .remove 10,
        .incrementErrors]
      { conns := [(11, 101)], semCap := 2, sem := 1, shutdown := false,
        stats := { ActiveConnections := 1, TotalConnections := 2, Errors := 1,
                   MessagesForwarded := 1 },
        cancelled := [100], closed := [] } 2 (by decide)).2.2.1⟩

/-- Rounds of one admitted `Add` followed by its `Remove`: each round leaves
the gate empty and `ActiveConnections` at 0 and moves `TotalConnections` on by one. -/
theorem rounds_add_remove (c : Conn) (cf : CancelFunc) (m : Nat) :
    ∀ (cm : ConnectionManager) (j : Nat), cm.shutdown = false → cm.sem = 0 →
      0 < cm.semCap → cm.stats.ActiveConnections = 0 →
      cm.stats.TotalConnections = wrapInt32 j →
      ∃ s : ConnectionManager,
        runCalls (cm, j) (rounds [.add 0 c cf, .remove c] m) = some (s, j + m)
          ∧ s.stats.TotalConnections = wrapInt32 ((j + m : Nat) : Int)
          ∧ s.stats.ActiveConnections = 0 := by
  induction m with
  | zero =>
    intro cm j _ _ _ h4 h5
    exact ⟨cm, rfl, h5, h4⟩
  | succ m ih =>
    intro cm j h1 h2 h3 h4 h5
    have hadd := Add_admits cm 0 c cf h1 (by omega)
    have e1 : (cm.Add 0 c cf).1 = true := by rw [hadd]
    have e2 : (cm.Add 0 c cf).2.sem = cm.sem + 1 := by rw [hadd]
    have e3 : (cm.Add 0 c cf).2.semCap = cm.semCap := by rw [hadd]
    have e4 : (cm.Add 0 c cf).2.shutdown = cm.shutdown := by rw [hadd]
    have e5 : (cm.Add 0 c cf).2.stats.ActiveConnections
        = addInt32 cm.stats.ActiveConnections 1 := by rw [hadd]
    have e6 : (cm.Add 0 c cf).2.stats.TotalConnections
        = addInt32 cm.stats.TotalConnections 1 := by rw [hadd]
    obtain ⟨s, hs, s1, s2, s3, s4, s5⟩ :=
      Remove_returns_stats (cm.Add 0 c cf).2 c (by rw [e2]; omega)
    have hA : s.stats.ActiveConnections = 0 := by
      rw [s4, e5, h4]
      decide
    have hT : s.stats.TotalConnections = wrapInt32 ((j + 1 : Nat) : Int) := by
      rw [s5, e6, h5, addInt32_wrapInt32]
      push_cast
      rfl
    obtain ⟨t, ht, t1, t2⟩ := ih s (j + 1) (by rw [s3, e4, h1]) (by rw [s1, e2, h2])
      (by rw [s2, e3]; exact h3) hA hT
    refine ⟨t, ?_, ?_, t2⟩
    · have hr : rounds [.add 0 c cf, .remove c] (m + 1)
          = .add 0 c cf :: .remove c :: rounds [.add 0 c cf, .remove c] m := rfl
      rw [hr]
      simp only [runCalls, if_pos e1, hs]
      rw [ht]
      congr 2
      omega
    · rw [t1]
      congr 2
      omega

/-- A run of admitted `Add` calls: the gate fills by one per call and
`ActiveConnections` is the `int32` of the number of occupied slots. -/
theorem rounds_add (c : Conn) (cf : CancelFunc) (m : Nat) :
    ∀ (cm : ConnectionManager) (j : Nat), cm.shutdown = false →
      cm.sem + m ≤ cm.semCap → cm.stats.ActiveConnections = wrapInt32 cm.sem →
      ∃ s : ConnectionManager,
        runCalls (cm, j) (rounds [.add 0 c cf] m) = some (s, j + m)
          ∧ s.sem = cm.sem + m
          ∧ s.stats.ActiveConnections = wrapInt32 ((cm.sem + m : Nat) : Int) := by
  induction m with
  | zero =>
    intro cm j _ _ h3
    exact ⟨cm, rfl, rfl, h3⟩
  | succ m ih =>
    intro cm j h1 h2 h3
    have hadd := Add_admits cm 0 c cf h1 (by omega)
    have e1 : (cm.Add 0 c cf).1 = true := by rw [hadd]
    have e2 : (cm.Add 0 c cf).2.sem = cm.sem + 1 := by rw [hadd]
    have e3 : (cm.Add 0 c cf).2.semCap = cm.semCap := by rw [hadd]
    have e4 : (cm.Add 0 c cf).2.shutdown = cm.shutdown := by rw [hadd]
    have e5 : (cm.Add 0 c cf).2.stats.ActiveConnections
        = addInt32 cm.stats.ActiveConnections 1 := by rw [hadd]
    obtain ⟨t, ht, t1, t2⟩ := ih (cm.Add 0 c cf).2 (j + 1) (by rw [e4, h1])
      (by rw [e2, e3]; omega)
      (by rw [e5, h3, addInt32_wrapInt32, e2]; push_cast; rfl)
    refine ⟨t, ?_, by rw [t1, e2]; omega, ?_⟩
    · have hr : rounds [.add 0 c cf] (m + 1) = .add 0 c cf :: rounds [.add 0 c cf] m := rfl
      rw [hr]
      simp only [runCalls, if_pos e1]
      rw [ht]
      congr 2
      omega
    · rw [t2, e2]
      congr 2
      omega

/-- C13, counterexample: on a manager of capacity 1, after 2^31 rounds of an
admitted `Add` followed by its `Remove`, 2147483648 `Add` calls have returned
true but `TotalConnections` is -2147483648, below `ActiveConnections = 0`; and on
a manager of capacity 2^31, after 2^31 admitted `Add` calls, 2147483648 slots are
occupied but `ActiveConnections` is -2147483648. -/
theorem TotalConnections_wraps :
    (runCalls (NewConnectionManager 1, 0)
        (rounds [.add 0 7 70, .remove 7] 2147483648)).map
        (fun s => (s.1.Stats.TotalConnections, s.1.Stats.ActiveConnections, s.2))
        = some (-2147483648, 0, 2147483648)
      ∧ (runCalls (NewConnectionManager 2147483648, 0)
        (rounds [.add 0 7 70] 2147483648)).map
        (fun s => (s.1.Stats.ActiveConnections, s.1.sem, s.2))
        = some (-2147483648, 2147483648, 2147483648) := by
  have hw : wrapInt32 ((2147483648 : Nat) : Int) = -2147483648 := by decide
  constructor
  · obtain ⟨s, hs, s1, s2⟩ := rounds_add_remove 7 70 2147483648 (NewConnectionManager 1) 0
      rfl rfl (by decide) rfl rfl
    rw [Nat.zero_add] at hs s1
    rw [hs, Option.map_some']
    show some (s.stats.TotalConnections, s.stats.ActiveConnections, 2147483648) = _
    rw [s1, s2, hw]
  · obtain ⟨s, hs, s1, s2⟩ := rounds_add 7 70 2147483648 (NewConnectionManager 2147483648) 0
      rfl (Nat.le_of_eq (Nat.zero_add _)) rfl
    have e0 : (NewConnectionManager 2147483648).sem = 0 := rfl
    rw [e0, Nat.zero_add] at s1 s2
    rw [Nat.zero_add] at hs
    rw [hs, Option.map_some']
    show some (s.stats.ActiveConnections, s.sem, 2147483648) = _
    rw [s1, s2, hw]

/-- After a run of admitted `Add` calls of `c` the connection `c` is tracked. -/
theorem rounds_add_lookup (c : Conn) (cf : CancelFunc) (m : Nat) :
    ∀ (cm : ConnectionManager) (j : Nat) (s : ConnectionManager) (k : Nat),
      cm.shutdown = false → cm.sem + m ≤ cm.semCap →
      (0 < m ∨ lookupConn cm.conns c = some cf) →
      runCalls (cm, j) (rounds [.add 0 c cf] m) = some (s, k) →
      lookupConn s.conns c = some cf := by
  induction m with
  | zero =>
    intro cm j s k _ _ h3 hrun
    simp only [rounds, runCalls, Option.some.injEq, Prod.mk.injEq] at hrun
    rcases h3 with h3 | h3
    · omega
    · rw [← hrun.1]; exact h3
  | succ m ih =>
    intro cm j s k h1 h2 _ hrun
    have hadd := Add_admits cm 0 c cf h1 (by omega)
    have e2 : (cm.Add 0 c cf).2.sem = cm.sem + 1 := by rw [hadd]
    have e3 : (cm.Add 0 c cf).2.semCap = cm.semCap := by rw [hadd]
    have e4 : (cm.Add 0 c cf).2.shutdown = cm.shutdown := by rw [hadd]
    have e7 : lookupConn (cm.Add 0 c cf).2.conns c = some cf := by
      rw [hadd]; simp [lookupConn, insertConn]
    have hr : rounds [.add 0 c cf] (m + 1) = .add 0 c cf :: rounds [.add 0 c cf] m := rfl
    rw [hr] at hrun
    simp only [runCalls] at hrun
    exact ih (cm.Add 0 c cf).2 _ s k (by rw [e4, h1]) (by rw [e2, e3]; omega) (Or.inr e7) hrun

/-- C10, counterexample: (1) on a manager of capacity 2, after `Add` of
connection 1 has returned true and `Remove` has been called for connection 2,
which was never added, connection 1 is still tracked but the gate is empty:
`Remove(1)` invokes the cancel function and deletes the entry, then stays blocked
at `<-cm.sem`, and `ActiveConnections` is not decreased. (2) On a manager of
capacity 2^31, after 2^31 admitted `Add` calls of connection 7, it is tracked and
`ActiveConnections` is -2147483648; `Remove(7)` returns and leaves
`ActiveConnections` at 2147483647. -/
theorem Remove_tracked_blocks :
    runCalls (NewConnectionManager 2, 0) [.add 0 1 11, .remove 2] =
        some ({ conns := [(1, 11)], semCap := 2, sem := 0, shutdown := false,
                stats := { ActiveConnections := 0, TotalConnections := 1, Errors := 0,
                           MessagesForwarded := 0 },
                cancelled := [], closed := [] }, 1)
      ∧ lookupConn [(1, 11)] 1 = some 11
      ∧ ConnectionManager.Remove
          { conns := [(1, 11)], semCap := 2, sem := 0, shutdown := false,
            stats := { ActiveConnections := 0, TotalConnections := 1, Errors := 0,
                       MessagesForwarded := 0 },
            cancelled := [], closed := [] } 1 =
          .blocked { conns := [], semCap := 2, sem := 0, shutdown := false,
                     stats := { ActiveConnections := 0, TotalConnections := 1, Errors := 0,
                                MessagesForwarded := 0 },
                     cancelled := [11], closed := [] }
      ∧ (runCalls (NewConnectionManager 2147483648, 0)
          (rounds [.add 0 7 70] 2147483648)).map
          (fun s => (lookupConn s.1.conns 7, s.1.Stats.ActiveConnections,
            match s.1.Remove 7 with
            | .returned t => some t.Stats.ActiveConnections
            | .blocked _ => none))
          = some (some 70, -2147483648, some 2147483647) := by
  refine ⟨by decide, by decide, by decide, ?_⟩
  have hw : wrapInt32 ((2147483648 : Nat) : Int) = -2147483648 := by decide
  have hd : addInt32 (-2147483648) (-1) = 2147483647 := by decide
  obtain ⟨s, hs, s1, s2⟩ := rounds_add 7 70 2147483648 (NewConnectionManager 2147483648) 0
    rfl (Nat.le_of_eq (Nat.zero_add _)) rfl
  have hl := rounds_add_lookup 7 70 2147483648 (NewConnectionManager 2147483648) 0 s _
    rfl (Nat.le_of_eq (Nat.zero_add _)) (Or.inl (by decide)) hs
  have e0 : (NewConnectionManager 2147483648).sem = 0 := rfl
  rw [e0, Nat.zero_add] at s1 s2
  rw [hw] at s2
  obtain ⟨t, ht, _, _, _, t4, _⟩ := Remove_returns_stats s 7 (by rw [s1]; decide)
  rw [hs, Option.map_some', ht]
  show some (lookupConn s.conns 7, s.stats.ActiveConnections, some t.stats.ActiveConnections) = _
  rw [hl, t4, s2, hd]

/-! ### Heartbeat -/

/-- The frame built at every tick. -/
theorem CreateHeartbeatPacket_ok :
    CreateHeartbeatPacket = .ok [0, 0, 0, 16, 0, 16, 0, 1, 0, 0, 0, 2, 0, 0, 0, 1] := by
  decide

/-- C11, the code on each event: a cancellation leaves the heartbeat `Running`
with everything unchanged (the divergence), and a heartbeat is still written at
the next tick; a tick whose write succeeds leaves it `Running` and the counters
unchanged; a tick whose write fails moves it to `Stopped` after one
`IncrementErrors`; `Stopped` has no way out. -/
theorem HandleHeartbeat_ignores_cancel (cm : ConnectionManager) (w : List (List Byte)) :
    heartbeatStep { state := .Running, cm := cm, written := w } .cancel
        = { state := .Running, cm := cm, written := w }
      ∧ HandleHeartbeat cm [.cancel, .tick false]
        = { state := .Running, cm := cm,
            written := [[0, 0, 0, 16, 0, 16, 0, 1, 0, 0, 0, 2, 0, 0, 0, 1]] }
      ∧ heartbeatStep { state := .Running, cm := cm, written := w } (.tick false)
        = { state := .Running, cm := cm,
            written := w ++ [[0, 0, 0, 16, 0, 16, 0, 1, 0, 0, 0, 2, 0, 0, 0, 1]] }
      ∧ heartbeatStep { state := .Running, cm := cm, written := w } (.tick true)
        = { state := .Stopped, cm := cm.IncrementErrors, written := w }
      ∧ (cm.IncrementErrors.Stats.Errors = addInt32 cm.Stats.Errors 1)
      ∧ ∀ e : HeartbeatEvent,
          heartbeatStep { state := .Stopped, cm := cm, written := w } e
            = { state := .Stopped, cm := cm, written := w } := by
  refine ⟨rfl, ?_, ?_, ?_, rfl, ?_⟩
  · simp [HandleHeartbeat, heartbeatStep, CreateHeartbeatPacket_ok]
  · simp [heartbeatStep, CreateHeartbeatPacket_ok]
  · simp [heartbeatStep, CreateHeartbeatPacket_ok]
  · intro e
    cases e <;> rfl

/-! ### Relay loop -/

/-- What one step of a session can be: a step of a forwarding goroutine, which
touches neither the record of cancel calls, nor the phase, nor the release
count, and starts no goroutine; a `CloseAll`; or the return of `wg.Wait()`,
possible only in phase `forwarding` with both goroutines out of their loops,
which makes the one call of `Remove`. -/
theorem relayStep_cases (s t : RelaySession) (e : RelayEvent) (h : relayStep s e = some t) :
    (e ≠ .closeAll ∧ t.cm.cancelled = s.cm.cancelled ∧ t.phase = s.phase
        ∧ t.removeCalls = s.removeCalls ∧ t.cancel = s.cancel
        ∧ (t.upRunning = true → s.upRunning = true)
        ∧ (t.downRunning = true → s.downRunning = true))
      ∨ (e = .closeAll ∧ t = { s with cm := s.cm.CloseAll })
      ∨ (e = .waitReturns ∧ s.phase = .forwarding ∧ s.upRunning = false
        ∧ s.downRunning = false ∧ t.removeCalls = s.removeCalls + 1
        ∧ t.upRunning = false ∧ t.downRunning = false ∧ t.cancel = s.cancel
        ∧ ((t.phase = .returned ∧ s.cancel ∈ t.cm.cancelled) ∨ t.phase = .removing)) := by
  cases e with
  | ioError up =>
    left
    cases up <;> cases hu : s.upRunning <;> cases hd : s.downRunning <;>
      simp [relayStep, hu, hd] at h <;> subst h <;> simp [hu, hd]
  | forwarded up =>
    left
    cases up <;> cases hu : s.upRunning <;> cases hd : s.downRunning <;>
      simp [relayStep, hu, hd] at h <;> subst h <;>
      simp [hu, hd, ConnectionManager.IncrementMessages]
  | sawDone up =>
    left
    cases hc : s.ctxDone <;> cases up <;> cases hu : s.upRunning <;> cases hd : s.downRunning <;>
      simp [relayStep, hc, hu, hd] at h <;> subst h <;> simp [hu, hd]
  | closeAll =>
    right; left
    simp only [relayStep, Option.some.injEq] at h
    exact ⟨rfl, h.symm⟩
  | waitReturns =>
    right; right
    by_cases hg : s.phase = .forwarding ∧ s.upRunning = false ∧ s.downRunning = false
    · simp only [relayStep, if_pos hg] at h
      cases hr : s.cm.Remove s.clientConn with
      | returned cm =>
        rw [hr] at h
        simp only [Option.some.injEq] at h
        subst h
        exact ⟨rfl, hg.1, hg.2.1, hg.2.2, rfl, hg.2.1, hg.2.2, rfl, Or.inl ⟨rfl, by simp⟩⟩
      | blocked cm =>
        rw [hr] at h
        simp only [Option.some.injEq] at h
        subst h
        exact ⟨rfl, hg.1, hg.2.1, hg.2.2, rfl, hg.2.1, hg.2.2, rfl, Or.inr rfl⟩
    · simp only [relayStep, if_neg hg] at h
      cases h

/-- One step keeps the release count in line with the handler's phase: no
`Remove` while in `wg.Wait()`, exactly one after, and then both forwarding
goroutines have left their loops and the token is fired once the handler has
returned. The phase never goes back. -/
theorem relayStep_inv (s t : RelaySession) (e : RelayEvent) (h : relayStep s e = some t)
    (h1 : s.phase = .forwarding → s.removeCalls = 0)
    (h2 : s.phase ≠ .forwarding →
      s.removeCalls = 1 ∧ s.upRunning = false ∧ s.downRunning = false)
    (h3 : s.phase = .returned → s.cancel ∈ s.cm.cancelled) :
    (t.phase = .forwarding → t.removeCalls = 0)
      ∧ (t.phase ≠ .forwarding →
          t.removeCalls = 1 ∧ t.upRunning = false ∧ t.downRunning = false)
      ∧ (t.phase = .returned → t.cancel ∈ t.cm.cancelled)
      ∧ t.cancel = s.cancel
      ∧ (t.phase = .forwarding → s.phase = .forwarding) := by
  rcases relayStep_cases s t e h with ⟨_, c1, c2, c3, c4, c5, c6⟩ | ⟨_, rfl⟩ |
    ⟨_, w1, w2, w3, w4, w5, w6, w7, w8⟩
  · rw [c1, c2, c3, c4]
    refine ⟨h1, fun hp => ?_, h3, rfl, id⟩
    obtain ⟨a1, a2, a3⟩ := h2 hp
    refine ⟨a1, ?_, ?_⟩
    · cases ht : t.upRunning with
      | false => rfl
      | true => rw [c5 ht] at a2; cases a2
    · cases ht : t.downRunning with
      | false => rfl
      | true => rw [c6 ht] at a3; cases a3
  · refine ⟨h1, h2, fun hp => ?_, rfl, id⟩
    have := h3 hp
    simp only [ConnectionManager.CloseAll, List.mem_append]
    exact Or.inl this
  · have h0 := h1 w1
    rcases w8 with ⟨p1, p2⟩ | p1
    · refine ⟨fun hp => ?_, fun _ => ⟨by rw [w4, h0], w5, w6⟩, fun _ => by rw [w7]; exact p2, w7,
        fun hp => ?_⟩ <;> rw [p1] at hp <;> cases hp
    · refine ⟨fun hp => ?_, fun _ => ⟨by rw [w4, h0], w5, w6⟩, fun hp => ?_, w7,
        fun hp => ?_⟩ <;> rw [p1] at hp <;> cases hp

/-- Without `CloseAll`, a step that leaves the handler in `wg.Wait()` does not
fire the session's token. -/
theorem relayStep_quiet (s t : RelaySession) (e : RelayEvent) (h : relayStep s e = some t)
    (he : e ≠ .closeAll) (hq : s.cancel ∉ s.cm.cancelled) (hp : t.phase = .forwarding) :
    t.cancel ∉ t.cm.cancelled := by
  rcases relayStep_cases s t e h with ⟨_, c1, _, _, c4, _, _⟩ | ⟨hc, _⟩ |
    ⟨_, _, _, _, _, _, _, _, w8⟩
  · rw [c1, c4]; exact hq
  · exact absurd hc he
  · rcases w8 with ⟨p1, _⟩ | p1 <;> rw [p1] at hp <;> cases hp

/-- A step never brings the handler back into `wg.Wait()`. -/
theorem relayStep_phase (s t : RelaySession) (e : RelayEvent) (h : relayStep s e = some t)
    (hp : t.phase = .forwarding) : s.phase = .forwarding := by
  rcases relayStep_cases s t e h with ⟨_, _, c2, _, _, _, _⟩ | ⟨_, rfl⟩ |
    ⟨_, w1, _, _, _, _, _, _, _⟩
  · rw [← c2]; exact hp
  · exact hp
  · exact w1

/-- A run never brings the handler back into `wg.Wait()`. -/
theorem runRelay_phase (events : List RelayEvent) :
    ∀ s t : RelaySession, runRelay s events = some t → t.phase = .forwarding →
      s.phase = .forwarding := by
  induction events with
  | nil =>
    intro s t h hp
    simp only [runRelay, Option.some.injEq] at h
    rw [h]; exact hp
  | cons e rest ih =>
    intro s t h hp
    simp only [runRelay] at h
    cases hs : relayStep s e with
    | none => rw [hs] at h; cases h
    | some u =>
      rw [hs] at h
      exact relayStep_phase s u e hs (ih u t h hp)

/-- The release count stays in line with the handler's phase along a run. -/
theorem runRelay_inv (events : List RelayEvent) :
    ∀ s t : RelaySession, runRelay s events = some t →
      (s.phase = .forwarding → s.removeCalls = 0) →
      (s.phase ≠ .forwarding →
        s.removeCalls = 1 ∧ s.upRunning = false ∧ s.downRunning = false) →
      (s.phase = .returned → s.cancel ∈ s.cm.cancelled) →
      (t.phase = .forwarding → t.removeCalls = 0)
        ∧ (t.phase ≠ .forwarding →
            t.removeCalls = 1 ∧ t.upRunning = false ∧ t.downRunning = false)
        ∧ (t.phase = .returned → t.cancel ∈ t.cm.cancelled)
        ∧ t.cancel = s.cancel := by
  induction events with
  | nil =>
    intro s t h h1 h2 h3
    simp only [runRelay, Option.some.injEq] at h
    subst h
    exact ⟨h1, h2, h3, rfl⟩
  | cons e rest ih =>
    intro s t h h1 h2 h3
    simp only [runRelay] at h
    cases hs : relayStep s e with
    | none => rw [hs] at h; cases h
    | some u =>
      rw [hs] at h
      obtain ⟨u1, u2, u3, u4, _⟩ := relayStep_inv s u e hs h1 h2 h3
      obtain ⟨t1, t2, t3, t4⟩ := ih u t h u1 u2 u3
      exact ⟨t1, t2, t3, t4.trans u4⟩

/-- Without `CloseAll`, the token is not fired as long as the handler is in `wg.Wait()`. -/
theorem runRelay_quiet (events : List RelayEvent) :
    ∀ s t : RelaySession, runRelay s events = some t → RelayEvent.closeAll ∉ events →
      s.cancel ∉ s.cm.cancelled → t.phase = .forwarding → t.cancel ∉ t.cm.cancelled := by
  induction events with
  | nil =>
    intro s t h _ hq _
    simp only [runRelay, Option.some.injEq] at h
    subst h
    exact hq
  | cons e rest ih =>
    intro s t h hno hq hp
    simp only [runRelay] at h
    cases hs : relayStep s e with
    | none => rw [hs] at h; cases h
    | some u =>
      rw [hs] at h
      have hne : e ≠ .closeAll := fun hc => hno (by rw [hc]; exact List.mem_cons_self _ _)
      have hrest : RelayEvent.closeAll ∉ rest := fun hc => hno (List.mem_cons_of_mem _ hc)
      have hu := runRelay_phase rest u t h hp
      exact ih u t h hrest (relayStep_quiet s u e hs hne hq hu) hp

/-- Method `Add` calls no cancel function. -/
theorem Add_cancelled (cm : ConnectionManager) (pick : Nat) (conn : Conn) (cancel : CancelFunc) :
    (cm.Add pick conn cancel).2.cancelled = cm.cancelled := by
  unfold ConnectionManager.Add
  cases selectAdd pick (decide (cm.sem < cm.semCap)) cm.shutdown <;> rfl

/-- C12 (as amended): for every admitted session and every run of its relay
loop, `Remove` has been called exactly once as soon as the handler has left
`wg.Wait()` and not at all before (so never twice), the handler leaves
`wg.Wait()` only when both forwarding goroutines have left their loops, and the
session's token is fired when the handler has returned; while the handler is in
`wg.Wait()` and no `CloseAll` has run, the token is not fired, whichever
forwarding goroutine has exited. -/
theorem relay_release_once (cm : ConnectionManager) (pick : Nat) (clientConn : Conn)
    (cancel : CancelFunc) (s0 s : RelaySession) (events : List RelayEvent)
    (hadm : startRelay cm pick clientConn cancel = some s0)
    (hrun : runRelay s0 events = some s) :
    s.removeCalls ≤ 1
      ∧ (s.phase = .forwarding → s.removeCalls = 0)
      ∧ (s.phase ≠ .forwarding →
          s.removeCalls = 1 ∧ s.upRunning = false ∧ s.downRunning = false)
      ∧ (s.phase = .returned → s.ctxDone = true)
      ∧ (cancel ∉ cm.cancelled → RelayEvent.closeAll ∉ events → s.phase = .forwarding →
          s.ctxDone = false) := by
  unfold startRelay at hadm
  split at hadm
  · simp only [Option.some.injEq] at hadm
    subst hadm
    obtain ⟨t1, t2, t3, t4⟩ := runRelay_inv events _ s hrun (fun _ => rfl)
      (fun hp => absurd rfl hp) (fun hp => by cases hp)
    refine ⟨?_, t1, t2, fun hp => ?_, fun hq hno hp => ?_⟩
    · by_cases hp : s.phase = .forwarding
      · rw [t1 hp]; exact Nat.zero_le 1
      · rw [(t2 hp).1]
    · simp only [RelaySession.ctxDone, decide_eq_true_eq]
      exact t3 hp
    · simp only [RelaySession.ctxDone, decide_eq_false_iff_not]
      refine runRelay_quiet events _ s hrun hno ?_ hp
      show cancel ∉ (cm.Add pick clientConn cancel).2.cancelled
      rw [Add_cancelled]
      exact hq
  · cases hadm

/-- C12, witness: a session on a manager of capacity 1 forwards one message,
then both forwarding goroutines fail and the handler returns: one `Remove`, and
the token fired. -/
theorem relay_release_once_witness :
    startRelay (NewConnectionManager 1) 0 7 70 =
        some { cm := { conns := [(7, 70)], semCap := 1, sem := 1, shutdown := false,
                       stats := { ActiveConnections := 1, TotalConnections := 1, Errors := 0,
                                  MessagesForwarded := 0 },
                       cancelled := [], closed := [] },
               clientConn := 7, cancel := 70, upRunning := true, downRunning := true,
               phase := .forwarding, removeCalls := 0 }
      ∧ (1 : Nat) ≤ 1
      ∧ RelaySession.ctxDone
          { cm := { conns := [], semCap := 1, sem := 0, shutdown := false,
                    stats := { ActiveConnections := 0, TotalConnections := 1, Errors := 0,
                               MessagesForwarded := 1 },
                    cancelled := [70, 70], closed := [7] },
            clientConn := 7, cancel := 70, upRunning := false, downRunning := false,
            phase := .returned, removeCalls := 1 } = true :=
  ⟨by decide,
    (relay_release_once (NewConnectionManager 1) 0 7 70
      { cm := { conns := [(7, 70)], semCap := 1, sem := 1, shutdown := false,
                stats := { ActiveConnections := 1, TotalConnections := 1, Errors := 0,
                           MessagesForwarded := 0 },
                cancelled := [], closed := [] },
        clientConn := 7, cancel := 70, upRunning := true, downRunning := true,
        phase := .forwarding, removeCalls := 0 }
      { cm := { conns := [], semCap := 1, sem := 0, shutdown := false,
                stats := { ActiveConnections := 0, TotalConnections := 1, Errors := 0,
                           MessagesForwarded := 1 },
                cancelled := [70, 70], closed := [7] },
        clientConn := 7, cancel := 70, upRunning := false, downRunning := false,
        phase := .returned, removeCalls := 1 }
      [.forwarded true, .ioError true, .ioError false, .waitReturns]
      (by decide) (by decide)).1,
    (relay_release_once (NewConnectionManager 1) 0 7 70
      { cm := { conns := [(7, 70)], semCap := 1, sem := 1, shutdown := false,
                stats := { ActiveConnections := 1, TotalConnections := 1, Errors := 0,
                           MessagesForwarded := 0 },
                cancelled := [], closed := [] },
        clientConn := 7, cancel := 70, upRunning := true, downRunning := true,
        phase := .forwarding, removeCalls := 0 }
      { cm := { conns := [], semCap := 1, sem := 0, shutdown := false,
                stats := { ActiveConnections := 0, TotalConnections := 1, Errors := 0,
                           MessagesForwarded := 1 },
                cancelled := [70, 70], closed := [7] },
        clientConn := 7, cancel := 70, upRunning := false, downRunning := false,
        phase := .returned, removeCalls := 1 }
      [.forwarded true, .ioError true, .ioError false, .waitReturns]
      (by decide) (by decide)).2.2.2.1 rfl⟩

/-- C12, counterexample: in a session admitted on a manager of capacity 1 the
client-to-upstream goroutine exits on a read error. The token is not fired, the
other goroutine is still in its loop and cannot take `<-ctx.Done()`, it goes on
forwarding, `wg.Wait()` cannot return and `Remove` has not been called. -/
theorem relay_first_exit_keeps_token :
    (startRelay (NewConnectionManager 1) 0 7 70).bind (fun s => runRelay s [.ioError true]) =
        some { cm := { conns := [(7, 70)], semCap := 1, sem := 1, shutdown := false,
                       stats := { ActiveConnections := 1, TotalConnections := 1, Errors := 0,
                                  MessagesForwarded := 0 },
                       cancelled := [], closed := [] },
               clientConn := 7, cancel := 70, upRunning := false, downRunning := true,
               phase := .forwarding, removeCalls := 0 }
      ∧ ((startRelay (NewConnectionManager 1) 0 7 70).bind
          (fun s => runRelay s [.ioError true])).map
          (fun s => (s.ctxDone, s.removeCalls, s.downRunning)) = some (false, 0, true)
      ∧ (startRelay (NewConnectionManager 1) 0 7 70).bind
          (fun s => runRelay s [.ioError true, .sawDone false]) = none
      ∧ (startRelay (NewConnectionManager 1) 0 7 70).bind
          (fun s => runRelay s [.ioError true, .waitReturns]) = none
      ∧ ((startRelay (NewConnectionManager 1) 0 7 70).bind
          (fun s => runRelay s [.ioError true, .forwarded false, .forwarded false])).map
          (fun s => (s.ctxDone, s.removeCalls, s.downRunning)) = some (false, 0, true) := by
  decide

end BiliMux
